import Mathlib

/-!
A verification development for the Sudoku constraint engine.

The Rust source (`src/sudoku.rs`) is shallowly embedded here:

* `u8`/`u16` values become `Nat` (bit operations are performed with
  `Nat.land`/`Nat.lor`/`Nat.xor`/`Nat.shiftLeft`, masking to 16 bits where the
  Rust code relies on `u16` complement);
* Rust `String`/`&str` values become `List Char`;
* the `Sudoku` struct is split into a `Core` (grid, the three bitmask arrays
  and the prefilled map — exactly the fields read and written by `insert`,
  `fetch_next_empty_cell`, `solve`, `reset`, `to_str`) plus the two remaining
  fields `solved_grid` and `highlighted`;
* the `HashMap<Position, u8>` of prefilled clues becomes the function
  `Fin 9 → Fin 9 → Option Nat` (its lookup semantics);
* loops that are unbounded in the source (`solve`'s main loop, the generator's
  retry loops) take an explicit fuel argument and return `none` when the fuel
  runs out; bounded `for` loops are embedded structurally;
* the random number generator is modelled as an arbitrary stream of naturals,
  reduced into the requested range exactly as a uniform draw can land.
-/

set_option maxRecDepth 100000

namespace SudokuSpec

/-- Cell states, from `enum CellState` in the source. -/
inductive CellState where
  | normal
  | userMarkedDefault
  | wrong
  | hinted
deriving DecidableEq, Repr

/-- Result statuses of `insert_at`, from `enum InsertStatus`. -/
inductive InsertStatus where
  | wrong
  | right
  | valuePresent
deriving DecidableEq, Repr

/-- Result statuses of `hint`, from `enum HintStatus`. -/
inductive HintStatus where
  | ok
  | valuePresent
deriving DecidableEq, Repr

/-- A cell of the 9×9 grid: `(Option<u8>, CellState)`. -/
abbrev Cell := Option Nat × CellState

/-- The 9×9 grid `Board`, indexed by row then column (`grid[pos.x][pos.y]`). -/
abbrev Grid := Fin 9 → Fin 9 → Cell

/-- The value view of a grid (ignoring cell states). -/
abbrev VGrid := Fin 9 → Fin 9 → Option Nat

/-- The fields of `struct Sudoku` that the board-level operations
(`insert`, `update_maps`, `fetch_next_empty_cell`, `solve`, `reset`,
`to_str`) read and write. -/
structure Core where
  grid : Grid
  prefilled : Fin 9 → Fin 9 → Option Nat
  rows : Fin 9 → Nat
  columns : Fin 9 → Nat
  blocks : Fin 9 → Nat

/-- The full `struct Sudoku`: the core fields plus the cached solved grid and
the highlighted digit. -/
structure Sudoku where
  core : Core
  solved_grid : Grid
  highlighted : Option Nat

/-- Value view of a core's grid. -/
def Core.vals (c : Core) : VGrid := fun i j => (c.grid i j).1

/-- All 81 positions in row-major order (the iteration order of every
`for i in 0..9 { for j in 0..9 { ... } }` loop in the source). -/
def posList : List (Fin 9 × Fin 9) :=
  (List.finRange 9).flatMap (fun i => (List.finRange 9).map (fun j => (i, j)))

/-- Pointwise update of a grid at one position. -/
def setCell (g : Grid) (x y : Fin 9) (v : Cell) : Grid :=
  fun i j => if i = x ∧ j = y then v else g i j

/-- Pointwise update of one of the three mask arrays. -/
def updAt (m : Fin 9 → Nat) (i : Fin 9) (f : Nat → Nat) : Fin 9 → Nat :=
  fun j => if j = i then f (m j) else m j

/-- `Sudoku::get_block_id`: `(row / 3) * 3 + (col / 3)`. -/
def get_block_id (x y : Fin 9) : Fin 9 :=
  ⟨(x.val / 3) * 3 + y.val / 3, by omega⟩

/-- `u16::count_ones`, i.e. the population count of a 16-bit mask. -/
def popcount (m : Nat) : Nat :=
  ((List.range 16).filter (fun i => m.testBit i)).length

/-- `Sudoku::check_for_conflict`: true if bit `v` is set in any of the given
masks (the three masks the caller selects by index). -/
def check_for_conflict (maps : List Nat) (v : Nat) : Bool :=
  maps.any (fun m => (m &&& (1 <<< v)) != 0)

/-- `Sudoku::insert_into_bitmap`: `map[idx] |= 1 << v`. -/
def insert_into_bitmap (m : Fin 9 → Nat) (idx : Fin 9) (v : Nat) : Fin 9 → Nat :=
  updAt m idx (fun w => w ||| (1 <<< v))

/-- The `UpdateMapsType::Remove` arm of `Sudoku::update_maps`: clear bit `v`
of the three masks of position `(x, y)` (`map &= !(1 << v)` on `u16`,
embedded as a 16-bit complement).  This arm never fails in the source. -/
def update_maps_remove (c : Core) (x y : Fin 9) (v : Nat) : Core :=
  let bid := get_block_id x y
  { c with
    blocks := updAt c.blocks bid (fun w => w &&& (65535 ^^^ (1 <<< v)))
    rows := updAt c.rows x (fun w => w &&& (65535 ^^^ (1 <<< v)))
    columns := updAt c.columns y (fun w => w &&& (65535 ^^^ (1 <<< v))) }

/-- The `UpdateMapsType::Add` arm of `Sudoku::update_maps`: fail if bit `v` is
already set in any of the three masks of `(x, y)`, otherwise set it in all
three.  `none` is the `Err("given value is already present")` case. -/
def update_maps_add (c : Core) (x y : Fin 9) (v : Nat) : Option Core :=
  let bid := get_block_id x y
  if check_for_conflict [c.blocks bid, c.rows x, c.columns y] v then
    none
  else
    some { c with
      blocks := insert_into_bitmap c.blocks bid v
      rows := insert_into_bitmap c.rows x v
      columns := insert_into_bitmap c.columns y v }

/-- `Sudoku::insert`.  The boolean is `result.is_ok()`; the returned core is
the state of `self` after the call (on the `Err` path the source has already
removed the previous value's bits but has not written the grid). -/
def insertB (c : Core) (x y : Fin 9) (val : Option Nat) (cs : CellState) :
    Bool × Core :=
  let c1 := match (c.grid x y).1 with
    | some v => update_maps_remove c x y v
    | none => c
  match val with
  | none => (true, { c1 with grid := setCell c1.grid x y (none, cs) })
  | some v =>
    match update_maps_add c1 x y v with
    | none => (false, c1)
    | some c2 => (true, { c2 with grid := setCell c2.grid x y (some v, cs) })

/-- `Sudoku::highlight`. -/
def highlight (s : Sudoku) (val : Option Nat) : Sudoku :=
  match val with
  | none => { s with highlighted := none }
  | some _ =>
    if s.highlighted = val then { s with highlighted := none }
    else { s with highlighted := val }

/-- `Sudoku::insert_at`. -/
def insert_at (s : Sudoku) (x y : Fin 9) (val : Option Nat) :
    InsertStatus × Sudoku :=
  match val with
  | some _ =>
    if (s.core.grid x y).1.isSome then (InsertStatus.valuePresent, s)
    else
      let cs := if (s.solved_grid x y).1 ≠ val then CellState.wrong
                else CellState.normal
      let resp := if (s.solved_grid x y).1 ≠ val then InsertStatus.wrong
                  else InsertStatus.right
      let s := if s.highlighted.isSome ∧ s.highlighted ≠ val then
                 highlight s val
               else s
      match insertB s.core x y val cs with
      | (false, c') => (InsertStatus.valuePresent, { s with core := c' })
      | (true, c') => (resp, { s with core := c' })
  | none =>
    match insertB s.core x y none CellState.normal with
    | (false, c') => (InsertStatus.valuePresent, { s with core := c' })
    | (true, c') => (InsertStatus.right, { s with core := c' })

/-- `Sudoku::hint`: copies the solved grid's value into the cell, marking it
`Hinted`, without touching the bitmask arrays. -/
def hintB (s : Sudoku) (x y : Fin 9) : HintStatus × Sudoku :=
  if (s.core.grid x y).1.isSome then (HintStatus.valuePresent, s)
  else
    (HintStatus.ok,
      { s with core := { s.core with
          grid := setCell s.core.grid x y ((s.solved_grid x y).1, CellState.hinted) } })

/-- The combined population count of the three masks of a cell, the
"constrainedness" score of `fetch_next_empty_cell`. -/
def cellScore (c : Core) (p : Fin 9 × Fin 9) : Nat :=
  popcount (c.rows p.1) + popcount (c.columns p.2) +
    popcount (c.blocks (get_block_id p.1 p.2))

/-- One cell of `Sudoku::fetch_next_empty_cell`'s scan: an empty cell whose
score strictly exceeds the running maximum replaces the candidate. -/
def fetchStep (c : Core) (acc : Nat × Option (Fin 9 × Fin 9))
    (p : Fin 9 × Fin 9) : Nat × Option (Fin 9 × Fin 9) :=
  if (c.grid p.1 p.2).1 = none then
    if cellScore c p > acc.1 then (cellScore c p, some p) else acc
  else acc

/-- `Sudoku::fetch_next_empty_cell`: row-major scan keeping the empty cell
whose three masks have the strictly largest total population count. -/
def fetch_next_empty_cell (c : Core) : Option (Fin 9 × Fin 9) :=
  (posList.foldl (fetchStep c) ((0 : Nat), (none : Option (Fin 9 × Fin 9)))).2

/-- `Sudoku::is_board_solved_completely`: every block mask has exactly nine
bits set. -/
def is_board_solved_completely (c : Core) : Bool :=
  (List.finRange 9).all (fun b => popcount (c.blocks b) == 9)

/-- Decimal digits of a natural below 100 (enough for `u8::to_string` on the
cell values that ever reach `to_str`). -/
def natChars (n : Nat) : List Char :=
  if n < 10 then [Char.ofNat (48 + n)]
  else [Char.ofNat (48 + n / 10), Char.ofNat (48 + n % 10)]

/-- `Sudoku::to_str`: the compact comma-separated encoding.  A filled cell
that is not a prefilled clue is prefixed with `u`; every cell except the last
is followed by a comma. -/
def to_str (c : Core) : List Char :=
  posList.foldl
    (fun acc p =>
      let acc := match (c.grid p.1 p.2).1 with
        | some k =>
          (acc ++ (if c.prefilled p.1 p.2 = none then ['u'] else [])) ++ natChars k
        | none => acc
      if p.1.val + 1 ≥ 9 ∧ p.2.val + 1 ≥ 9 then acc else acc ++ [','])
    []

/-- `Sudoku::to_thonky_str`: the dense 81-character encoding, `.` for an
empty cell and the digit character otherwise. -/
def to_thonky_str (s : Sudoku) : List Char :=
  posList.foldl
    (fun acc p => match (s.core.grid p.1 p.2).1 with
      | some k => acc ++ natChars k
      | none => acc ++ ['.'])
    []

/-- One step of `Sudoku::reset`'s cell loop: skip prefilled and
`UserMarkedDefault` cells; otherwise remove the bits of the current value (if
any) and clear the cell's value, keeping its state. -/
def resetStep (c : Core) (p : Fin 9 × Fin 9) : Core :=
  if c.prefilled p.1 p.2 ≠ none ∨ (c.grid p.1 p.2).2 = CellState.userMarkedDefault then
    c
  else
    let c' := match (c.grid p.1 p.2).1 with
      | some v => update_maps_remove c p.1 p.2 v
      | none => c
    { c' with grid := setCell c'.grid p.1 p.2 (none, (c'.grid p.1 p.2).2) }

/-- `Sudoku::reset` on the core fields. -/
def resetCore (c : Core) : Core :=
  posList.foldl resetStep c

/-- `Sudoku::reset`. -/
def resetB (s : Sudoku) : Sudoku :=
  { s with core := resetCore s.core }

/-! ## The solver (`Sudoku::solve`)

The iterative backtracking loop of the source is embedded as a fueled
recursion `solveGo` over an explicit loop state.  The two bounded digit
`for` loops inside the loop body become `tryDigits` (the backtracking arm,
`for i in v+1..=9`) and `descendTry` (the descending arm, `for i in 1..=9`).
The cached solved grid is threaded as the `solvedG` component. -/

/-- The local state of `Sudoku::solve`'s main loop. -/
structure SolveSt where
  c : Core
  stack : List (Fin 9 × Fin 9)
  deadEnd : Bool
  solutions : Nat
  initialSolution : List Char
  solvedG : Grid

/-- The grid with every cell `(None, CellState::Normal)`, assigned to the
solved grid when a second distinct solution is found. -/
def emptyGrid : Grid := fun _ _ => (none, CellState.normal)

/-- The backtracking digit loop `for i in v+1..=9` of `Sudoku::solve`:
starting at digit `i`, retry the popped cell with the next digits.  Returns
whether some digit was inserted, together with the resulting core (on
exhaustion the cell has been cleared at `i == 9`).  The fuel argument only
bounds the structurally decreasing digit count and is always called
with `9`. -/
def tryDigits (p : Fin 9 × Fin 9) : Nat → Core → Nat → Bool × Core
  | 0, c, _ => (false, c)
  | k + 1, c, i =>
    if i > 9 then (false, c)
    else
      match insertB c p.1 p.2 (some i) CellState.normal with
      | (true, c') => (true, c')
      | (false, c') =>
        if i = 9 then (false, (insertB c' p.1 p.2 none CellState.normal).2)
        else tryDigits p k c' (i + 1)

/-- Outcomes of the descending digit loop `for i in 1..=9` of
`Sudoku::solve`. -/
inductive DescendRes where
  /-- Some digit was inserted into the empty cell. -/
  | success (c : Core)
  /-- All nine digits conflicted and the filled stack was empty: the source
  returns `solutions == 1` from inside the loop. -/
  | exhaustedReturn
  /-- All nine digits conflicted: the cell is re-cleared and the search
  switches to backtracking. -/
  | exhaustedContinue (c : Core)

/-- The descending digit loop `for i in 1..=9` of `Sudoku::solve` on the
fetched empty cell `p`.  `stackEmpty` tells the `i == 9` arm whether the
filled stack is empty. -/
def descendTry (p : Fin 9 × Fin 9) (stackEmpty : Bool) :
    Nat → Core → Nat → DescendRes
  | 0, c, _ => DescendRes.exhaustedContinue c
  | k + 1, c, i =>
    match insertB c p.1 p.2 (some i) CellState.normal with
    | (true, c') => DescendRes.success c'
    | (false, c') =>
      if i = 9 then
        if stackEmpty then DescendRes.exhaustedReturn
        else DescendRes.exhaustedContinue (insertB c' p.1 p.2 none CellState.normal).2
      else descendTry p stackEmpty k c' (i + 1)

/-- The solution-counting block at the top of `solve`'s loop: when no empty
cell is left and the search is not backtracking, a full assignment was
reached; count it, snapshot it, and on a second solution return
(`Sum.inr` is the `return` of the source, `Sum.inl` the continuing state).
The source binds `next_empty_cell` once per iteration; since
`fetch_next_empty_cell` is pure it is re-evaluated here instead. -/
def solutionsBlock (st : SolveSt) : SolveSt ⊕ (Bool × Core × Grid) :=
  if fetch_next_empty_cell st.c = none ∧ st.deadEnd = false then
    if st.solutions + 1 ≥ 2 then
      if st.initialSolution ≠ [] ∧ st.initialSolution = to_str st.c then
        Sum.inr (true, st.c, st.c.grid)
      else Sum.inr (false, st.c, emptyGrid)
    else
      Sum.inl { st with
        solutions := st.solutions + 1
        solvedG := st.c.grid
        initialSolution := to_str st.c
        deadEnd := true }
  else Sum.inl st

/-- One-loop-iteration-per-fuel-unit embedding of `Sudoku::solve`'s main
loop.  Returns `none` when the fuel is exhausted, otherwise the boolean
result together with the final core and solved grid. -/
def solveGo : Nat → SolveSt → Option (Bool × Core × Grid)
  | 0, _ => none
  | fuel + 1, st₀ =>
    if fetch_next_empty_cell st₀.c = none ∧ st₀.stack = [] then
      some (false, st₀.c, st₀.solvedG)
    else
      match solutionsBlock st₀ with
      | Sum.inr r => some r
      | Sum.inl st =>
        if st.deadEnd then
          match st.stack with
          | [] => solveGo fuel { st with deadEnd := false }
          | pos :: rest =>
            match (st.c.grid pos.1 pos.2).1 with
            | none => some (false, st.c, st.solvedG)
            | some v =>
              match tryDigits pos 9
                  (if v = 9 then
                    (insertB st.c pos.1 pos.2 none CellState.normal).2
                  else st.c) (v + 1) with
              | (true, c2) =>
                solveGo fuel { st with c := c2, stack := pos :: rest, deadEnd := false }
              | (false, c2) =>
                solveGo fuel { st with c := c2, stack := rest }
        else
          match fetch_next_empty_cell st.c with
          | none => some (is_board_solved_completely st.c, st.c, st.solvedG)
          | some pos =>
            match descendTry pos (st.stack = []) 9 st.c 1 with
            | DescendRes.success c' =>
              solveGo fuel { st with c := c', stack := pos :: st.stack }
            | DescendRes.exhaustedReturn =>
              some (st.solutions == 1, st.c, st.solvedG)
            | DescendRes.exhaustedContinue c' =>
              solveGo fuel { st with c := c', deadEnd := true }

/-- `Sudoku::solve` with the given fuel: `filled_stack` starts empty,
`reached_dead_end` false, `solutions` zero and `initial_solution` the empty
string. -/
def solveB (s : Sudoku) (fuel : Nat) : Option (Bool × Sudoku) :=
  (solveGo fuel ⟨s.core, [], false, 0, [], s.solved_grid⟩).map
    (fun r => (r.1, ⟨r.2.1, r.2.2, s.highlighted⟩))

/-! ## Parsing (`Sudoku::from_str`) -/

/-- `Sudoku::from_thonky_str`: replace every `.` by `,`, keep every other
character. -/
def from_thonky_str (s : List Char) : List Char :=
  s.map (fun ch => if ch = '.' then ',' else ch)

/-- Rust's `str::split(",")`: split at every comma, keeping empty pieces. -/
def splitOnComma : List Char → List (List Char)
  | [] => [[]]
  | ch :: rest =>
    if ch = ',' then [] :: splitOnComma rest
    else
      match splitOnComma rest with
      | [] => [[ch]]
      | piece :: pieces => (ch :: piece) :: pieces

/-- Rust's `str::trim`. -/
def trimChars (s : List Char) : List Char :=
  (s.dropWhile Char.isWhitespace).reverse.dropWhile Char.isWhitespace |>.reverse

/-- The value of a list of ASCII digit characters, `none` if the list is
empty or contains a non-digit. -/
def digitsVal : List Char → Option Nat
  | [] => none
  | [ch] => if ch.isDigit then some (ch.toNat - 48) else none
  | ch :: rest =>
    if ch.isDigit then
      (digitsVal rest).map (fun v => (ch.toNat - 48) * 10 ^ rest.length + v)
    else none

/-- Rust's `str::parse::<u8>()`: an optional leading `+`, then at least one
ASCII digit, with a value of at most 255. -/
def parse_u8 (s : List Char) : Option Nat :=
  let digits := match s with
    | '+' :: rest => digitsVal rest
    | _ => digitsVal s
  match digits with
  | some v => if v ≤ 255 then some v else none
  | none => none

/-- The numeric tail of `from_str`'s cell loop: parse the (possibly
`u`-stripped) token as a `u8`; an unparsable token is silently an empty
cell, a parsed value outside `[1, 9]` is a hard failure. -/
def parseDigitToken (v : List Char) (isUser : Bool) : Except (List Char) Cell :=
  match parse_u8 v with
  | none => Except.ok (none, CellState.normal)
  | some val =>
    if val < 1 ∨ val > 9 then
      Except.error
        ("input values cannot contain values less than 1 or greater than 9").data
    else if isUser then Except.ok (some val, CellState.userMarkedDefault)
    else Except.ok (some val, CellState.normal)

/-- The per-token body of `Sudoku::from_str`'s cell loop: produces the cell
pushed onto the list.  A two-character token must start with `u`
(case-insensitively); its second (lowercased) character is then parsed as
the digit. -/
def parseCell (tok : List Char) : Except (List Char) Cell :=
  if trimChars tok = [] then Except.ok (none, CellState.normal)
  else if (trimChars tok).length = 2 then
    if ((trimChars tok).map Char.toLower).head? = some 'u' then
      parseDigitToken (((trimChars tok).map Char.toLower).tail) true
    else
      Except.error
        ("expected first char to be u for user input but found otherwise").data
  else parseDigitToken (trimChars tok) false

/-- The cell loop of `Sudoku::from_str` over all tokens, stopping at the
first hard failure. -/
def parseCells : List (List Char) → Except (List Char) (List Cell)
  | [] => Except.ok []
  | t :: ts =>
    match parseCell t with
    | Except.error e => Except.error e
    | Except.ok cell =>
      match parseCells ts with
      | Except.error e => Except.error e
      | Except.ok cells => Except.ok (cell :: cells)

/-- Reassemble the parsed cell list (of length 81) into a grid; the
source's `chunks(9)` / `try_into` step. -/
def gridOfList (cells : List Cell) : Grid :=
  fun i j => (cells.get? (i.val * 9 + j.val)).getD (none, CellState.normal)

/-- The prefilled map built by the cell loop: exactly the non-`u` digit
tokens, i.e. the cells parsed as `(Some v, CellState::Normal)`. -/
def prefilledOfCells (cells : List Cell) : Fin 9 → Fin 9 → Option Nat :=
  fun i j =>
    match (cells.get? (i.val * 9 + j.val)).getD (none, CellState.normal) with
    | (some v, CellState.normal) => some v
    | _ => none

/-- The three accumulated mask arrays (rows, columns, blocks). -/
abbrev Masks3 := (Fin 9 → Nat) × (Fin 9 → Nat) × (Fin 9 → Nat)

/-- One cell of the duplicate-detection loop of `Sudoku::from_str` (also the
mask rebuild loop of `random_board`): fail on a conflict, otherwise set the
cell's bit in the three masks. -/
def buildStep (g : Grid) (acc : Masks3) (p : Fin 9 × Fin 9) :
    Except (List Char) Masks3 :=
  match (g p.1 p.2).1 with
  | none => Except.ok acc
  | some val =>
    if check_for_conflict
        [acc.2.2 (get_block_id p.1 p.2), acc.1 p.1, acc.2.1 p.2] val then
      Except.error ("duplicate value found in row block or column").data
    else
      Except.ok (insert_into_bitmap acc.1 p.1 val,
        insert_into_bitmap acc.2.1 p.2 val,
        insert_into_bitmap acc.2.2 (get_block_id p.1 p.2) val)

/-- The duplicate-detection loop itself, over the listed cells in order. -/
def buildMasksGo (g : Grid) : List (Fin 9 × Fin 9) → Masks3 →
    Except (List Char) Masks3
  | [], acc => Except.ok acc
  | p :: l, acc =>
    match buildStep g acc p with
    | Except.error e => Except.error e
    | Except.ok acc' => buildMasksGo g l acc'

/-- The duplicate-detection scan of the whole grid in row-major order,
starting from all-zero masks. -/
def buildMasks (g : Grid) : Except (List Char) Masks3 :=
  buildMasksGo g posList (fun _ => 0, fun _ => 0, fun _ => 0)

/-- The dense-to-compact preprocessing at the top of `Sudoku::from_str`. -/
def preprocess (inp : List Char) : List Char :=
  if inp.contains '.' then from_thonky_str inp else inp

/-- `Sudoku::from_str`.  `fuel` bounds the final `solve` call (an embedding
artifact: the source's loop is unbounded); fuel exhaustion is reported as an
error distinct from every source error. -/
def from_str (fuel : Nat) (inp : List Char) : Except (List Char) Sudoku :=
  if (splitOnComma (preprocess inp)).length ≠ 81 then
    Except.error ("invalid input found, expected 81 cells").data
  else
    match parseCells (splitOnComma (preprocess inp)) with
    | Except.error e => Except.error e
    | Except.ok cells =>
      match buildMasks (gridOfList cells) with
      | Except.error e => Except.error e
      | Except.ok (rows, columns, blocks) =>
        match solveB ⟨⟨gridOfList cells, prefilledOfCells cells, rows,
            columns, blocks⟩, gridOfList cells, none⟩ fuel with
        | some (true, s') => Except.ok (resetB s')
        | some (false, _) => Except.error ("invalid board given").data
        | none => Except.error ("solver fuel exhausted").data

/-- The front end of `from_str` alone (token split and cell parse), as an
observer: the grid a syntactically well-formed input denotes, before the
duplicate scan and the solver gate. -/
def parsedGrid (inp : List Char) : Option Grid :=
  if (splitOnComma (preprocess inp)).length ≠ 81 then none
  else
    match parseCells (splitOnComma (preprocess inp)) with
    | Except.error _ => none
    | Except.ok cells => some (gridOfList cells)

/-! ## The generator (`Sudoku::random_board`, `generate_random_board`)

The path with `conditional_run_info == None` is embedded (the variant
`generate_random_boards` additionally drives threads, a shared dedup set and
disk files).  The random number generator is an arbitrary stream
`rng : Nat → Nat`; a draw `rng.random_range(lo..=hi)` at stream position `n`
yields `lo + rng n % (hi - lo + 1)`, and every loop threads the next unused
stream position. -/

/-- The innermost draw loop of `random_board`'s grid fill: draw random
digits for cell `(i, j)` until one does not conflict, giving up (and
restarting the whole grid) after 20 consecutive conflicting draws.  Returns
the chosen digit and the next stream position, or `none` (= `continue
'outer`) with the next stream position. -/
def drawCell (rng : Nat → Nat) (rows columns blocks : Fin 9 → Nat)
    (i j : Fin 9) : Nat → Nat → Option (Nat × Nat) × Nat
  | 0, idx => (none, idx)
  | k + 1, idx =>
    let val := rng idx % 9 + 1
    let bid := get_block_id i j
    if (blocks bid &&& (1 <<< val)) != 0 ∨ (rows i &&& (1 <<< val)) != 0 ∨
        (columns j &&& (1 <<< val)) != 0 then
      drawCell rng rows columns blocks i j k (idx + 1)
    else
      (some (val, idx + 1), idx + 1)

/-- The grid-fill loop of `random_board`: fill the listed cells in order,
maintaining the three masks; `none` when some cell hit 20 consecutive
conflicting draws. -/
def fillGrid (rng : Nat → Nat) :
    List (Fin 9 × Fin 9) →
    Grid × (Fin 9 → Nat) × (Fin 9 → Nat) × (Fin 9 → Nat) → Nat →
    Option (Grid × (Fin 9 → Nat) × (Fin 9 → Nat) × (Fin 9 → Nat)) × Nat
  | [], acc, idx => (some acc, idx)
  | p :: ps, (g, rows, columns, blocks), idx =>
    match drawCell rng rows columns blocks p.1 p.2 20 idx with
    | (none, idx') => (none, idx')
    | (some (val, _), idx') =>
      fillGrid rng ps
        (setCell g p.1 p.2 (some val, (g p.1 p.2).2),
          insert_into_bitmap rows p.1 val,
          insert_into_bitmap columns p.2 val,
          insert_into_bitmap blocks (get_block_id p.1 p.2) val)
        idx'

/-- The clue-removal loop of `random_board`: draw random positions until
`removals` distinct filled cells have been cleared.  The loop is unbounded
in the source; `fuel` bounds it here and `none` models a call that has not
completed. -/
def removalLoop (rng : Nat → Nat) :
    Nat → Nat → Grid → Nat → Option (Grid × Nat)
  | _, 0, g, idx => some (g, idx)
  | 0, _ + 1, _, _ => none
  | fuel + 1, n + 1, g, idx =>
    let x : Fin 9 := ⟨rng idx % 9, Nat.mod_lt _ (by omega)⟩
    let y : Fin 9 := ⟨rng (idx + 1) % 9, Nat.mod_lt _ (by omega)⟩
    if (g x y).1 ≠ none then
      removalLoop rng fuel n (setCell g x y (none, (g x y).2)) (idx + 2)
    else
      removalLoop rng fuel (n + 1) g (idx + 2)

/-- The prefilled map `random_board` builds from the reduced grid: every
filled cell, with its value. -/
def prefilledOfGrid (g : Grid) : Fin 9 → Fin 9 → Option Nat :=
  fun i j => (g i j).1

/-- `Sudoku::random_board` (with `conditional_run_info == None`), with fuel
for the outer retry loop, the removal loop and the solver. -/
def random_board_go (number_of_clues : Nat) (rng : Nat → Nat)
    (remFuel solveFuel : Nat) : Nat → Nat → Option Sudoku
  | 0, _ => none
  | fuel + 1, idx =>
    match fillGrid rng posList (emptyGrid, fun _ => 0, fun _ => 0, fun _ => 0) idx with
    | (none, idx') => random_board_go number_of_clues rng remFuel solveFuel fuel idx'
    | (some (g, _, _, _), idx') =>
      match removalLoop rng remFuel (81 - number_of_clues) g idx' with
      | none => none
      | some (g', idx'') =>
        match buildMasks g' with
        | Except.error _ =>
          random_board_go number_of_clues rng remFuel solveFuel fuel idx''
        | Except.ok (rows, columns, blocks) =>
          let board : Sudoku :=
            ⟨⟨g', prefilledOfGrid g', rows, columns, blocks⟩, g', none⟩
          match solveB board solveFuel with
          | none => none
          | some (true, s') => some (resetB s')
          | some (false, _) =>
            random_board_go number_of_clues rng remFuel solveFuel fuel idx''

/-- `Sudoku::generate_random_board`: clamp the clue count to `[10, 80]` and
run `random_board`. -/
def generate_random_board (number_of_clues : Nat) (rng : Nat → Nat)
    (fuel remFuel solveFuel : Nat) : Option Sudoku :=
  random_board_go (min (max number_of_clues 10) 80) rng remFuel solveFuel fuel 0

/-- `Sudoku::number_of_initial_clues`: the size of the prefilled map. -/
def number_of_initial_clues (s : Sudoku) : Nat :=
  posList.countP (fun p => (s.core.prefilled p.1 p.2).isSome)

/-! ## Decidability of state equality -/

instance {α β : Type} [DecidableEq α] [DecidableEq β] :
    DecidableEq (Except α β) := fun a b =>
  match a, b with
  | Except.error e, Except.error e' =>
    decidable_of_iff (e = e') ⟨fun h => by rw [h], fun h => by cases h; rfl⟩
  | Except.ok v, Except.ok v' =>
    decidable_of_iff (v = v') ⟨fun h => by rw [h], fun h => by cases h; rfl⟩
  | Except.error _, Except.ok _ => isFalse (fun h => Except.noConfusion h)
  | Except.ok _, Except.error _ => isFalse (fun h => Except.noConfusion h)

instance : DecidableEq Core := fun a b =>
  decidable_of_iff
    (a.grid = b.grid ∧ a.prefilled = b.prefilled ∧ a.rows = b.rows ∧
      a.columns = b.columns ∧ a.blocks = b.blocks)
    (by cases a; cases b; simp)

instance : DecidableEq Sudoku := fun a b =>
  decidable_of_iff
    (a.core = b.core ∧ a.solved_grid = b.solved_grid ∧
      a.highlighted = b.highlighted)
    (by cases a; cases b; simp)

/-! ## Concrete boards and encodings used in the claim instances -/

/-- A classic fully solved grid, in row-major order. -/
def solDigits : List Nat :=
  [5, 3, 4, 6, 7, 8, 9, 1, 2,
   6, 7, 2, 1, 9, 5, 3, 4, 8,
   1, 9, 8, 3, 4, 2, 5, 6, 7,
   8, 5, 9, 7, 6, 1, 4, 2, 3,
   4, 2, 6, 8, 5, 3, 7, 9, 1,
   7, 1, 3, 9, 2, 4, 8, 5, 6,
   9, 6, 1, 5, 3, 7, 2, 8, 4,
   2, 8, 7, 4, 1, 9, 6, 3, 5,
   3, 4, 5, 2, 8, 6, 1, 7, 9]

/-- `solDigits` as a complete grid of normal cells. -/
def completeG : Grid :=
  fun i j => (some ((solDigits.get? (i.val * 9 + j.val)).getD 1), CellState.normal)

/-- Row masks computed directly from a grid. -/
def gridRowMask (g : Grid) (i : Fin 9) : Nat :=
  (List.finRange 9).foldl
    (fun m j => match (g i j).1 with
      | some v => m ||| (1 <<< v)
      | none => m) 0

/-- Column masks computed directly from a grid. -/
def gridColMask (g : Grid) (j : Fin 9) : Nat :=
  (List.finRange 9).foldl
    (fun m i => match (g i j).1 with
      | some v => m ||| (1 <<< v)
      | none => m) 0

/-- Block masks computed directly from a grid. -/
def gridBlockMask (g : Grid) (b : Fin 9) : Nat :=
  posList.foldl
    (fun m p =>
      if get_block_id p.1 p.2 = b then
        match (g p.1 p.2).1 with
        | some v => m ||| (1 <<< v)
        | none => m
      else m) 0

/-- A `Sudoku` loaded from a grid the way `from_str` assembles one: the
grid, its three mask arrays, every filled cell prefilled, the solved grid
initialized to the grid itself and no highlight. -/
def mkFromGrid (g : Grid) : Sudoku :=
  ⟨⟨g, prefilledOfGrid g, gridRowMask g, gridColMask g, gridBlockMask g⟩, g, none⟩

/-- The compact encoding of `completeG` with the first cell removed: an
81-token, 80-clue puzzle whose unique completion is `completeG`. -/
def s80Str : String :=
  ",3,4,6,7,8,9,1,2,6,7,2,1,9,5,3,4,8,1,9,8,3,4,2,5,6,7,8,5,9,7,6,1,4,2,3,4,2,6,8,5,3,7,9,1,7,1,3,9,2,4,8,5,6,9,6,1,5,3,7,2,8,4,2,8,7,4,1,9,6,3,5,3,4,5,2,8,6,1,7,9"

/-- `s80Str` as a character list. -/
def s80 : List Char := s80Str.data

/-- The compact encoding of the complete grid `completeG` itself. -/
def sFullStr : String :=
  "5,3,4,6,7,8,9,1,2,6,7,2,1,9,5,3,4,8,1,9,8,3,4,2,5,6,7,8,5,9,7,6,1,4,2,3,4,2,6,8,5,3,7,9,1,7,1,3,9,2,4,8,5,6,9,6,1,5,3,7,2,8,4,2,8,7,4,1,9,6,3,5,3,4,5,2,8,6,1,7,9"

/-- `sFullStr` as a character list. -/
def sFull : List Char := sFullStr.data

/-- `s80Str` with the empty first token replaced by the malformed
`u`-prefixed token `uu`. -/
def sUuStr : String :=
  "uu,3,4,6,7,8,9,1,2,6,7,2,1,9,5,3,4,8,1,9,8,3,4,2,5,6,7,8,5,9,7,6,1,4,2,3,4,2,6,8,5,3,7,9,1,7,1,3,9,2,4,8,5,6,9,6,1,5,3,7,2,8,4,2,8,7,4,1,9,6,3,5,3,4,5,2,8,6,1,7,9"

/-- `sUuStr` as a character list. -/
def sUu : List Char := sUuStr.data

/-- A random stream that makes the generator's grid fill reproduce
`solDigits` draw by draw and then remove cell `(0, 0)`. -/
def genStream : Nat → Nat :=
  fun n => if n < 81 then (solDigits.get? n).getD 1 - 1 else 0

/-! ## The grid/bitmask invariant -/

/-- A value grid with one cell blanked. -/
def eraseV (gv : VGrid) (x y : Fin 9) : VGrid :=
  fun i j => if i = x ∧ j = y then none else gv i j

/-- A value grid with one cell set. -/
def setV (gv : VGrid) (x y : Fin 9) (v : Nat) : VGrid :=
  fun i j => if i = x ∧ j = y then some v else gv i j

/-- The three mask arrays of `c` describe exactly the occupancy of the value
grid `gv`: bit `v` of a row/column/block mask is set precisely when some cell
of that row/column/block holds `v`. -/
structure MasksChar (c : Core) (gv : VGrid) : Prop where
  rows : ∀ (i : Fin 9) (v : Nat),
    (c.rows i).testBit v = true ↔ ∃ j, gv i j = some v
  columns : ∀ (j : Fin 9) (v : Nat),
    (c.columns j).testBit v = true ↔ ∃ i, gv i j = some v
  blocks : ∀ (b : Fin 9) (v : Nat),
    (c.blocks b).testBit v = true ↔
      ∃ p : Fin 9 × Fin 9, get_block_id p.1 p.2 = b ∧ gv p.1 p.2 = some v

/-- No digit appears twice in any row, column or block of the value grid. -/
structure ValidV (gv : VGrid) : Prop where
  rows : ∀ (i j j' : Fin 9) (v : Nat),
    gv i j = some v → gv i j' = some v → j = j'
  columns : ∀ (i i' j : Fin 9) (v : Nat),
    gv i j = some v → gv i' j = some v → i = i'
  blocks : ∀ (p q : Fin 9 × Fin 9) (v : Nat),
    get_block_id p.1 p.2 = get_block_id q.1 q.2 →
    gv p.1 p.2 = some v → gv q.1 q.2 = some v → p = q

/-- Every stored digit lies in `[1, 9]`. -/
def DigitsV (gv : VGrid) : Prop :=
  ∀ (i j : Fin 9) (v : Nat), gv i j = some v → 1 ≤ v ∧ v ≤ 9

/-- The central board invariant: masks characterize the grid, no duplicates,
digits in range. -/
structure CoreOk (c : Core) : Prop where
  chars : MasksChar c c.vals
  valid : ValidV c.vals
  digits : DigitsV c.vals

/-- The boolean form of the claim-level invariant, checked over the 16 bit
positions of each `u16` mask: every filled cell's digit bit is set in its
three masks, and every set bit is witnessed by a filled cell. -/
def invariantB (c : Core) : Bool :=
  (posList.all (fun p => match (c.grid p.1 p.2).1 with
    | some d => (c.rows p.1).testBit d && (c.columns p.2).testBit d &&
        (c.blocks (get_block_id p.1 p.2)).testBit d
    | none => true)) &&
  ((List.finRange 9).all (fun i => (List.range 16).all (fun d =>
    !(c.rows i).testBit d ||
      (List.finRange 9).any (fun j => (c.grid i j).1 == some d)))) &&
  ((List.finRange 9).all (fun j => (List.range 16).all (fun d =>
    !(c.columns j).testBit d ||
      (List.finRange 9).any (fun i => (c.grid i j).1 == some d)))) &&
  ((List.finRange 9).all (fun b => (List.range 16).all (fun d =>
    !(c.blocks b).testBit d ||
      posList.any (fun p =>
        get_block_id p.1 p.2 == b && (c.grid p.1 p.2).1 == some d))))

/-- The conflict condition of `update_maps_add` (hence of a `set`/`insert`)
at the level of the value grid: the digit is already present in the target
block, row or column. -/
def ConflictV (gv : VGrid) (x y : Fin 9) (v : Nat) : Prop :=
  (∃ p : Fin 9 × Fin 9,
      get_block_id p.1 p.2 = get_block_id x y ∧ gv p.1 p.2 = some v) ∨
  (∃ j, gv x j = some v) ∨ (∃ i, gv i y = some v)

instance (gv : VGrid) (x y : Fin 9) (v : Nat) :
    Decidable (ConflictV gv x y v) :=
  decidable_of_iff
    ((∃ p : Fin 9 × Fin 9,
        get_block_id p.1 p.2 = get_block_id x y ∧ gv p.1 p.2 = some v) ∨
      (∃ j, gv x j = some v) ∨ (∃ i, gv i y = some v)) Iff.rfl

/-- All mask bits at `u16` positions 16 and above are clear. -/
def MasksLow (c : Core) : Prop :=
  ∀ (i : Fin 9) (w : Nat), 16 ≤ w →
    (c.rows i).testBit w = false ∧ (c.columns i).testBit w = false ∧
      (c.blocks i).testBit w = false

/-- The state mid-way through a digit-retry sequence on an occupied cell:
the cell still holds `w` in the grid, but its bits have already been removed
from the masks, which now describe the grid with that cell blanked. -/
structure PendOk (c : Core) (x y : Fin 9) (w : Nat) : Prop where
  cell : (c.grid x y).1 = some w
  chars : MasksChar c (eraseV c.vals x y)
  valid : ValidV c.vals
  digits : DigitsV c.vals

/-! ### The digit loops of the solver -/

/-- The invariant of `fetch_next_empty_cell`'s scan after processing the
cells of `P`: either nothing positive was seen, or the candidate is the
first empty cell of `P` attaining the (positive) maximum score. -/
def FetchInv (c : Core) (P : List (Fin 9 × Fin 9))
    (acc : Nat × Option (Fin 9 × Fin 9)) : Prop :=
  (acc = (0, none) ∧
    ∀ q ∈ P, (c.grid q.1 q.2).1 = none → cellScore c q = 0) ∨
  (∃ p l1 l2, acc = (cellScore c p, some p) ∧ P = l1 ++ p :: l2 ∧
    (c.grid p.1 p.2).1 = none ∧ 0 < cellScore c p ∧
    (∀ q ∈ l1, (c.grid q.1 q.2).1 = none → cellScore c q < cellScore c p) ∧
    (∀ q ∈ P, (c.grid q.1 q.2).1 = none → cellScore c q ≤ cellScore c p))

/-! ### The loop invariant of `solve` -/

/-- `c` differs from the original core `c₀` only on cells that were empty in
`c₀`, and every such modified cell carries the `Normal` state (the state
`solve`'s inserts always write). -/
def TouchG (c₀ c : Core) : Prop :=
  ∀ i j : Fin 9, c.grid i j = c₀.grid i j ∨
    ((c₀.grid i j).1 = none ∧ ∃ ov, c.grid i j = (ov, CellState.normal))

/-- The invariant maintained across iterations of `solve`'s main loop,
relative to the core `c₀` the loop was started on. -/
structure LoopInv (c₀ : Core) (st : SolveSt) : Prop where
  ok : CoreOk st.c
  pref : st.c.prefilled = c₀.prefilled
  touch : TouchG c₀ st.c
  stack : ∀ q ∈ st.stack, (c₀.grid q.1 q.2).1 = none

/-! ### Behavior of `reset` -/

/-- The grid `reset` leaves behind: prefilled and user-marked cells are kept,
every other cell keeps its state but loses its value. -/
def resetTarget (c : Core) : Grid := fun i j =>
  if c.prefilled i j ≠ none ∨ (c.grid i j).2 = CellState.userMarkedDefault
  then c.grid i j else (none, (c.grid i j).2)

/-! ## Concrete cores for claim instances -/

/-- A core with two filled cells, `(0,0) = 1` and `(0,1) = 2`, and matching
masks. -/
def c2cexGrid : Grid := fun i j =>
  if i = 0 ∧ j = 0 then (some 1, CellState.normal)
  else if i = 0 ∧ j = 1 then (some 2, CellState.normal)
  else (none, CellState.normal)

/-- The core holding `c2cexGrid` with its three consistent mask arrays. -/
def c2cex : Core :=
  ⟨c2cexGrid, fun _ _ => none,
    fun i => if i = 0 then 6 else 0,
    fun j => if j = 0 then 2 else if j = 1 then 4 else 0,
    fun b => if b = 0 then 6 else 0⟩

/-- The completely empty board core. -/
def emptyCore : Core :=
  ⟨emptyGrid, fun _ _ => none, fun _ => 0, fun _ => 0, fun _ => 0⟩

/-- Whether an `Except` value is an error. -/
def isErr {α β : Type} (x : Except α β) : Bool :=
  match x with
  | Except.error _ => true
  | Except.ok _ => false

/-- A completion of a puzzle's value grid: a fully filled grid obeying the
row/column/block constraints, with digits in `[1, 9]`, that agrees with the
puzzle on its filled cells. -/
def Completion (b cv : VGrid) : Prop :=
  (∀ i j : Fin 9, cv i j ≠ none) ∧ ValidV cv ∧ DigitsV cv ∧
  (∀ (i j : Fin 9) (v : Nat), b i j = some v → cv i j = some v)

/-- The number of filled cells of a grid. -/
def filledCount (g : Grid) : Nat :=
  posList.countP (fun p => ((g p.1 p.2).1).isSome)

/-! ### Pointwise lemmas about grid and mask updates -/

@[simp] theorem setCell_same (g : Grid) (x y : Fin 9) (v : Cell) :
    setCell g x y v x y = v := by
  simp [setCell]

theorem setCell_other (g : Grid) (x y i j : Fin 9) (v : Cell)
    (h : ¬(i = x ∧ j = y)) : setCell g x y v i j = g i j := by
  simp [setCell, h]

@[simp] theorem updAt_same (m : Fin 9 → Nat) (i : Fin 9) (f : Nat → Nat) :
    updAt m i f i = f (m i) := by
  simp [updAt]

theorem updAt_other (m : Fin 9 → Nat) (i j : Fin 9) (f : Nat → Nat)
    (h : j ≠ i) : updAt m i f j = m j := by
  simp [updAt, h]

theorem eraseV_same (gv : VGrid) (x y : Fin 9) : eraseV gv x y x y = none := by
  simp [eraseV]

theorem eraseV_other (gv : VGrid) (x y i j : Fin 9) (h : ¬(i = x ∧ j = y)) :
    eraseV gv x y i j = gv i j := by
  simp [eraseV, h]

theorem setV_same (gv : VGrid) (x y : Fin 9) (v : Nat) :
    setV gv x y v x y = some v := by
  simp [setV]

theorem setV_other (gv : VGrid) (x y i j : Fin 9) (v : Nat)
    (h : ¬(i = x ∧ j = y)) : setV gv x y v i j = gv i j := by
  simp [setV, h]

/-- Bit `w` of `m ||| (1 << v)`. -/
theorem testBit_or_bit (m v w : Nat) :
    (m ||| (1 <<< v)).testBit w = (m.testBit w || decide (v = w)) := by
  rw [Nat.one_shiftLeft, Nat.testBit_lor, Nat.testBit_two_pow]

/-- Bit `w` of `m & !(1 << v)` on `u16` (embedded as
`m &&& (65535 ^^^ (1 <<< v))`), for an in-range bit index `v`. -/
theorem testBit_rm_bit (m v w : Nat) (hv : v < 16) :
    (m &&& (65535 ^^^ (1 <<< v))).testBit w =
      (m.testBit w && (decide (w < 16) && !decide (v = w))) := by
  have h65535 : (65535 : Nat) = 2 ^ 16 - 1 := by norm_num
  rw [Nat.one_shiftLeft, Nat.testBit_land, Nat.testBit_xor,
    h65535, Nat.testBit_two_pow_sub_one, Nat.testBit_two_pow]
  rcases Nat.lt_or_ge w 16 with hw | hw
  · simp [hw]
  · have : ¬(v = w) := by omega
    simp [this, Nat.not_lt.2 hw, Nat.not_lt_of_ge hw]

/-- The bit test `(m & (1 << v)) != 0` used by `check_for_conflict` and the
generator fill loop. -/
theorem and_bit_ne_zero (m v : Nat) : ((m &&& (1 <<< v)) != 0) = m.testBit v := by
  rw [Nat.one_shiftLeft, Nat.and_two_pow]
  cases h : m.testBit v <;>
    simp [h, Nat.pos_iff_ne_zero, (Nat.two_pow_pos v).ne]

theorem check_for_conflict_iff (ms : List Nat) (v : Nat) :
    check_for_conflict ms v = true ↔ ∃ m ∈ ms, m.testBit v = true := by
  simp [check_for_conflict, List.any_eq_true, and_bit_ne_zero]

/-! ### Preservation lemmas for the value-grid predicates -/

theorem eraseV_le {gv : VGrid} {x y i j : Fin 9} {v : Nat}
    (h : eraseV gv x y i j = some v) : gv i j = some v := by
  by_cases hij : i = x ∧ j = y
  · rw [eraseV, if_pos hij] at h; exact absurd h (by simp)
  · rwa [eraseV_other _ _ _ _ _ hij] at h

theorem setV_cases {gv : VGrid} {x y i j : Fin 9} {v w : Nat}
    (h : setV gv x y v i j = some w) :
    (i = x ∧ j = y ∧ w = v) ∨ (¬(i = x ∧ j = y) ∧ gv i j = some w) := by
  by_cases hij : i = x ∧ j = y
  · rw [setV, if_pos hij] at h
    exact Or.inl ⟨hij.1, hij.2, (Option.some_inj.1 h).symm⟩
  · rw [setV_other _ _ _ _ _ _ hij] at h; exact Or.inr ⟨hij, h⟩

theorem validV_erase {gv : VGrid} (h : ValidV gv) (x y : Fin 9) :
    ValidV (eraseV gv x y) := by
  refine ⟨?_, ?_, ?_⟩
  · intro i j j' v hj hj'
    exact h.rows i j j' v (eraseV_le hj) (eraseV_le hj')
  · intro i i' j v hi hi'
    exact h.columns i i' j v (eraseV_le hi) (eraseV_le hi')
  · intro p q v hb hp hq
    exact h.blocks p q v hb (eraseV_le hp) (eraseV_le hq)

theorem digitsV_erase {gv : VGrid} (h : DigitsV gv) (x y : Fin 9) :
    DigitsV (eraseV gv x y) :=
  fun i j v hv => h i j v (eraseV_le hv)

theorem validV_set {gv : VGrid} (h : ValidV gv) {x y : Fin 9} {v : Nat}
    (hc : ¬ ConflictV gv x y v) : ValidV (setV gv x y v) := by
  have hrow : ∀ j, ¬ gv x j = some v := by
    intro j hj; exact hc (Or.inr (Or.inl ⟨j, hj⟩))
  have hcol : ∀ i, ¬ gv i y = some v := by
    intro i hi; exact hc (Or.inr (Or.inr ⟨i, hi⟩))
  have hblk : ∀ p : Fin 9 × Fin 9,
      get_block_id p.1 p.2 = get_block_id x y → ¬ gv p.1 p.2 = some v := by
    intro p hb hp; exact hc (Or.inl ⟨p, hb, hp⟩)
  refine ⟨?_, ?_, ?_⟩
  · intro i j j' w hj hj'
    rcases setV_cases hj with ⟨hi, hjy, hw⟩ | ⟨hne, hjv⟩
    · rcases setV_cases hj' with ⟨hi', hjy', hw'⟩ | ⟨hne', hjv'⟩
      · rw [hjy, hjy']
      · exact absurd
          (show gv x j' = some v by rw [← hi, ← hw]; exact hjv') (hrow j')
    · rcases setV_cases hj' with ⟨hi', hjy', hw'⟩ | ⟨hne', hjv'⟩
      · exact absurd
          (show gv x j = some v by rw [← hi', ← hw']; exact hjv) (hrow j)
      · exact h.rows i j j' w hjv hjv'
  · intro i i' j w hi hi'
    rcases setV_cases hi with ⟨hix, hjy, hw⟩ | ⟨hne, hiv⟩
    · rcases setV_cases hi' with ⟨hix', hjy', hw'⟩ | ⟨hne', hiv'⟩
      · rw [hix, hix']
      · exact absurd
          (show gv i' y = some v by rw [← hjy, ← hw]; exact hiv') (hcol i')
    · rcases setV_cases hi' with ⟨hix', hjy', hw'⟩ | ⟨hne', hiv'⟩
      · exact absurd
          (show gv i y = some v by rw [← hjy', ← hw']; exact hiv) (hcol i)
      · exact h.columns i i' j w hiv hiv'
  · intro p q w hb hp hq
    rcases setV_cases hp with ⟨hpx, hpy, hw⟩ | ⟨hne, hpv⟩
    · rcases setV_cases hq with ⟨hqx, hqy, hw'⟩ | ⟨hne', hqv⟩
      · exact Prod.ext (hpx.trans hqx.symm) (hpy.trans hqy.symm)
      · refine absurd
          (show gv q.1 q.2 = some v by rw [← hw]; exact hqv) (hblk q ?_)
        rw [← hb, hpx, hpy]
    · rcases setV_cases hq with ⟨hqx, hqy, hw'⟩ | ⟨hne', hqv⟩
      · refine absurd
          (show gv p.1 p.2 = some v by rw [← hw']; exact hpv) (hblk p ?_)
        rw [hb, hqx, hqy]
      · exact h.blocks p q w hb hpv hqv

theorem digitsV_set {gv : VGrid} (h : DigitsV gv) {x y : Fin 9} {v : Nat}
    (h1 : 1 ≤ v) (h9 : v ≤ 9) : DigitsV (setV gv x y v) := by
  intro i j w hw
  rcases setV_cases hw with ⟨_, _, hw⟩ | ⟨_, hw⟩
  · omega
  · exact h i j w hw

/-- Setting a cell of the erased grid is the same as setting it in the
original grid. -/
theorem setV_eraseV (gv : VGrid) (x y : Fin 9) (v : Nat) :
    setV (eraseV gv x y) x y v = setV gv x y v := by
  funext i j
  by_cases hij : i = x ∧ j = y
  · rw [setV, setV, if_pos hij, if_pos hij]
  · rw [setV_other _ _ _ _ _ _ hij, setV_other _ _ _ _ _ _ hij,
      eraseV_other _ _ _ _ _ hij]

theorem vals_set_some (c : Core) (x y : Fin 9) (v : Nat) (cs : CellState) :
    Core.vals { c with grid := setCell c.grid x y (some v, cs) } =
      setV c.vals x y v := by
  funext i j
  by_cases hij : i = x ∧ j = y
  · simp only [Core.vals, setCell, setV, if_pos hij]
  · simp only [Core.vals, setCell, setV, if_neg hij]

theorem vals_set_none (c : Core) (x y : Fin 9) (cs : CellState) :
    Core.vals { c with grid := setCell c.grid x y (none, cs) } =
      eraseV c.vals x y := by
  funext i j
  by_cases hij : i = x ∧ j = y
  · simp only [Core.vals, setCell, eraseV, if_pos hij]
  · simp only [Core.vals, setCell, eraseV, if_neg hij]

/-! ### Characterization of the mask updates -/

/-- Removing the bits of the digit stored at `(x, y)` turns masks that
describe `gv` into masks that describe `gv` with that cell blanked. -/
theorem update_maps_remove_char (c : Core) (x y : Fin 9) (v : Nat) (gv : VGrid)
    (hm : MasksChar c gv) (hval : ValidV gv) (hd : DigitsV gv)
    (hgv : gv x y = some v) :
    MasksChar (update_maps_remove c x y v) (eraseV gv x y) := by
  have hv16 : v < 16 := by have := hd x y v hgv; omega
  refine ⟨?_, ?_, ?_⟩
  · intro i w
    show (updAt c.rows x (fun m => m &&& (65535 ^^^ (1 <<< v))) i).testBit w =
      true ↔ _
    by_cases hix : i = x
    · subst hix
      rw [updAt_same, testBit_rm_bit _ _ _ hv16]
      simp only [Bool.and_eq_true, decide_eq_true_eq, Bool.not_eq_true',
        decide_eq_false_iff_not]
      constructor
      · rintro ⟨h1, -, hvw⟩
        rcases (hm.rows i w).1 h1 with ⟨j, hj⟩
        have hjy : ¬(i = i ∧ j = y) := by
          rintro ⟨-, rfl⟩
          rw [hgv] at hj
          exact hvw (Option.some_inj.1 hj)
        exact ⟨j, by rw [eraseV_other _ _ _ _ _ hjy]; exact hj⟩
      · rintro ⟨j, hj⟩
        have hj' := eraseV_le hj
        have h1 : (c.rows i).testBit w = true := (hm.rows i w).2 ⟨j, hj'⟩
        have hw9 := hd i j w hj'
        refine ⟨h1, by omega, ?_⟩
        rintro rfl
        have hjy : j = y := hval.rows i j y v hj' hgv
        rw [eraseV, if_pos ⟨rfl, hjy⟩] at hj
        cases hj
    · rw [updAt_other _ _ _ _ hix]
      rw [hm.rows i w]
      refine exists_congr fun j => ?_
      rw [eraseV_other _ _ _ _ _ (by rintro ⟨rfl, -⟩; exact hix rfl)]
  · intro j w
    show (updAt c.columns y (fun m => m &&& (65535 ^^^ (1 <<< v))) j).testBit w =
      true ↔ _
    by_cases hjy : j = y
    · subst hjy
      rw [updAt_same, testBit_rm_bit _ _ _ hv16]
      simp only [Bool.and_eq_true, decide_eq_true_eq, Bool.not_eq_true',
        decide_eq_false_iff_not]
      constructor
      · rintro ⟨h1, -, hvw⟩
        rcases (hm.columns j w).1 h1 with ⟨i, hi⟩
        have hix : ¬(i = x ∧ j = j) := by
          rintro ⟨rfl, -⟩
          rw [hgv] at hi
          exact hvw (Option.some_inj.1 hi)
        exact ⟨i, by rw [eraseV_other _ _ _ _ _ hix]; exact hi⟩
      · rintro ⟨i, hi⟩
        have hi' := eraseV_le hi
        have h1 : (c.columns j).testBit w = true := (hm.columns j w).2 ⟨i, hi'⟩
        have hw9 := hd i j w hi'
        refine ⟨h1, by omega, ?_⟩
        rintro rfl
        have hix : i = x := hval.columns i x j v hi' hgv
        rw [eraseV, if_pos ⟨hix, rfl⟩] at hi
        cases hi
    · rw [updAt_other _ _ _ _ hjy]
      rw [hm.columns j w]
      refine exists_congr fun i => ?_
      rw [eraseV_other _ _ _ _ _ (by rintro ⟨-, rfl⟩; exact hjy rfl)]
  · intro b w
    show (updAt c.blocks (get_block_id x y)
      (fun m => m &&& (65535 ^^^ (1 <<< v))) b).testBit w = true ↔ _
    by_cases hb : b = get_block_id x y
    · subst hb
      rw [updAt_same, testBit_rm_bit _ _ _ hv16]
      simp only [Bool.and_eq_true, decide_eq_true_eq, Bool.not_eq_true',
        decide_eq_false_iff_not]
      constructor
      · rintro ⟨h1, -, hvw⟩
        rcases (hm.blocks _ w).1 h1 with ⟨p, hpb, hp⟩
        have hpxy : ¬(p.1 = x ∧ p.2 = y) := by
          rintro ⟨h1', h2'⟩
          rw [h1', h2', hgv] at hp
          exact hvw (Option.some_inj.1 hp)
        exact ⟨p, hpb, by rw [eraseV_other _ _ _ _ _ hpxy]; exact hp⟩
      · rintro ⟨p, hpb, hp⟩
        have hp' := eraseV_le hp
        have h1 : (c.blocks _).testBit w = true := (hm.blocks _ w).2 ⟨p, hpb, hp'⟩
        have hw9 := hd p.1 p.2 w hp'
        refine ⟨h1, by omega, ?_⟩
        rintro rfl
        have hpeq : p = (x, y) := hval.blocks p (x, y) v hpb hp' hgv
        rw [eraseV, if_pos ⟨by rw [hpeq], by rw [hpeq]⟩] at hp
        cases hp
    · rw [updAt_other _ _ _ _ hb]
      rw [hm.blocks b w]
      refine exists_congr fun p => ?_
      constructor
      · rintro ⟨hpb, hp⟩
        refine ⟨hpb, ?_⟩
        rw [eraseV_other _ _ _ _ _ ?_]
        · exact hp
        · rintro ⟨h1', h2'⟩
          exact hb (by rw [← hpb, h1', h2'])
      · rintro ⟨hpb, hp⟩
        exact ⟨hpb, eraseV_le hp⟩

theorem masksLow_of_char {c : Core} {gv : VGrid} (hm : MasksChar c gv)
    (hd : DigitsV gv) : MasksLow c := by
  intro i w hw
  refine ⟨?_, ?_, ?_⟩
  · cases hr : (c.rows i).testBit w
    · rfl
    · rcases (hm.rows i w).1 hr with ⟨j, hj⟩
      have := hd i j w hj
      omega
  · cases hr : (c.columns i).testBit w
    · rfl
    · rcases (hm.columns i w).1 hr with ⟨j, hj⟩
      have := hd j i w hj
      omega
  · cases hr : (c.blocks i).testBit w
    · rfl
    · rcases (hm.blocks i w).1 hr with ⟨p, -, hp⟩
      have := hd p.1 p.2 w hp
      omega

/-- Removing a digit whose bits are already absent (the re-removal performed
by each retry of `insert` on an occupied cell) does not change the core. -/
theorem update_maps_remove_id (c : Core) (x y : Fin 9) (v : Nat)
    (hv16 : v < 16) (hlow : MasksLow c)
    (hrow : (c.rows x).testBit v = false)
    (hcol : (c.columns y).testBit v = false)
    (hblk : (c.blocks (get_block_id x y)).testBit v = false) :
    update_maps_remove c x y v = c := by
  have hrows : updAt c.rows x (fun m => m &&& (65535 ^^^ (1 <<< v))) = c.rows := by
    funext i
    by_cases hix : i = x
    · subst hix
      rw [updAt_same]
      refine Nat.eq_of_testBit_eq fun w => ?_
      rw [testBit_rm_bit _ _ _ hv16]
      cases hmw : (c.rows i).testBit w
      · simp
      · have hw16 : w < 16 := by
          by_contra hge
          push_neg at hge
          have := (hlow i w hge).1
          rw [hmw] at this
          cases this
        have hvw : ¬ v = w := by
          rintro rfl
          rw [hrow] at hmw
          cases hmw
        simp [hw16, hvw]
    · rw [updAt_other _ _ _ _ hix]
  have hcols : updAt c.columns y (fun m => m &&& (65535 ^^^ (1 <<< v))) = c.columns := by
    funext j
    by_cases hjy : j = y
    · subst hjy
      rw [updAt_same]
      refine Nat.eq_of_testBit_eq fun w => ?_
      rw [testBit_rm_bit _ _ _ hv16]
      cases hmw : (c.columns j).testBit w
      · simp
      · have hw16 : w < 16 := by
          by_contra hge
          push_neg at hge
          have := (hlow j w hge).2.1
          rw [hmw] at this
          cases this
        have hvw : ¬ v = w := by
          rintro rfl
          rw [hcol] at hmw
          cases hmw
        simp [hw16, hvw]
    · rw [updAt_other _ _ _ _ hjy]
  have hblks : updAt c.blocks (get_block_id x y)
      (fun m => m &&& (65535 ^^^ (1 <<< v))) = c.blocks := by
    funext b
    by_cases hb : b = get_block_id x y
    · rw [hb, updAt_same]
      refine Nat.eq_of_testBit_eq fun w => ?_
      rw [testBit_rm_bit _ _ _ hv16]
      cases hmw : (c.blocks (get_block_id x y)).testBit w
      · simp
      · have hw16 : w < 16 := by
          by_contra hge
          push_neg at hge
          have := (hlow (get_block_id x y) w hge).2.2
          rw [hmw] at this
          cases this
        have hvw : ¬ v = w := by
          rintro rfl
          rw [hblk] at hmw
          cases hmw
        simp [hw16, hvw]
    · rw [updAt_other _ _ _ _ hb]
  show update_maps_remove c x y v = c
  simp only [update_maps_remove]
  rw [hrows, hcols, hblks]

theorem update_maps_add_none_iff (c : Core) (x y : Fin 9) (v : Nat)
    (gv : VGrid) (hm : MasksChar c gv) :
    update_maps_add c x y v = none ↔ ConflictV gv x y v := by
  constructor
  · intro h
    by_cases hch : check_for_conflict
        [c.blocks (get_block_id x y), c.rows x, c.columns y] v = true
    · rcases (check_for_conflict_iff _ _).1 hch with ⟨m, hmem, hbit⟩
      simp only [List.mem_cons, List.mem_singleton, List.not_mem_nil,
        or_false] at hmem
      rcases hmem with rfl | rfl | rfl
      · exact Or.inl ((hm.blocks _ v).1 hbit)
      · exact Or.inr (Or.inl ((hm.rows x v).1 hbit))
      · exact Or.inr (Or.inr ((hm.columns y v).1 hbit))
    · rw [update_maps_add] at h
      simp only [if_neg hch] at h
      exact Option.noConfusion h
  · intro hconf
    have hch : check_for_conflict
        [c.blocks (get_block_id x y), c.rows x, c.columns y] v = true := by
      apply (check_for_conflict_iff _ _).2
      rcases hconf with ⟨p, h1, h2⟩ | ⟨j, hj⟩ | ⟨i, hi⟩
      · exact ⟨c.blocks (get_block_id x y), by simp, (hm.blocks _ v).2 ⟨p, h1, h2⟩⟩
      · exact ⟨c.rows x, by simp, (hm.rows x v).2 ⟨j, hj⟩⟩
      · exact ⟨c.columns y, by simp, (hm.columns y v).2 ⟨i, hi⟩⟩
    rw [update_maps_add]
    simp only [if_pos hch]

theorem update_maps_add_some (c : Core) (x y : Fin 9) (v : Nat) (gv : VGrid)
    (hm : MasksChar c gv) (hempty : gv x y = none) (c' : Core)
    (h : update_maps_add c x y v = some c') :
    c'.grid = c.grid ∧ c'.prefilled = c.prefilled ∧
      MasksChar c' (setV gv x y v) ∧ ¬ ConflictV gv x y v := by
  have hch : check_for_conflict
      [c.blocks (get_block_id x y), c.rows x, c.columns y] v ≠ true := by
    intro hch
    have : update_maps_add c x y v = none := by
      rw [update_maps_add]
      simp only [if_pos hch]
    rw [this] at h
    cases h
  have hc' : c' = { c with
      blocks := insert_into_bitmap c.blocks (get_block_id x y) v
      rows := insert_into_bitmap c.rows x v
      columns := insert_into_bitmap c.columns y v } := by
    rw [update_maps_add] at h
    simp only [if_neg hch] at h
    exact (Option.some_inj.1 h).symm
  have hnoconf : ¬ ConflictV gv x y v := by
    intro hconf
    apply hch
    apply (check_for_conflict_iff _ _).2
    rcases hconf with ⟨p, h1, h2⟩ | ⟨j, hj⟩ | ⟨i, hi⟩
    · exact ⟨c.blocks (get_block_id x y), by simp, (hm.blocks _ v).2 ⟨p, h1, h2⟩⟩
    · exact ⟨c.rows x, by simp, (hm.rows x v).2 ⟨j, hj⟩⟩
    · exact ⟨c.columns y, by simp, (hm.columns y v).2 ⟨i, hi⟩⟩
  subst hc'
  refine ⟨rfl, rfl, ⟨?_, ?_, ?_⟩, hnoconf⟩
  · intro i w
    show (insert_into_bitmap c.rows x v i).testBit w = true ↔ _
    rw [insert_into_bitmap]
    by_cases hix : i = x
    · rw [hix, updAt_same, testBit_or_bit]
      simp only [Bool.or_eq_true, decide_eq_true_eq]
      constructor
      · rintro (h1 | rfl)
        · rcases (hm.rows x w).1 h1 with ⟨j, hj⟩
          have hjy : ¬(x = x ∧ j = y) := by
            rintro ⟨-, rfl⟩
            rw [hempty] at hj
            cases hj
          exact ⟨j, by rw [setV_other _ _ _ _ _ _ hjy]; exact hj⟩
        · exact ⟨y, setV_same _ _ _ _⟩
      · rintro ⟨j, hj⟩
        rcases setV_cases hj with ⟨-, -, rfl⟩ | ⟨hne, hj⟩
        · exact Or.inr rfl
        · exact Or.inl ((hm.rows x w).2 ⟨j, hj⟩)
    · rw [updAt_other _ _ _ _ hix, hm.rows i w]
      refine exists_congr fun j => ?_
      rw [setV_other _ _ _ _ _ _ (by rintro ⟨rfl, -⟩; exact hix rfl)]
  · intro j w
    show (insert_into_bitmap c.columns y v j).testBit w = true ↔ _
    rw [insert_into_bitmap]
    by_cases hjy : j = y
    · rw [hjy, updAt_same, testBit_or_bit]
      simp only [Bool.or_eq_true, decide_eq_true_eq]
      constructor
      · rintro (h1 | rfl)
        · rcases (hm.columns y w).1 h1 with ⟨i, hi⟩
          have hix : ¬(i = x ∧ y = y) := by
            rintro ⟨rfl, -⟩
            rw [hempty] at hi
            cases hi
          exact ⟨i, by rw [setV_other _ _ _ _ _ _ hix]; exact hi⟩
        · exact ⟨x, setV_same _ _ _ _⟩
      · rintro ⟨i, hi⟩
        rcases setV_cases hi with ⟨-, -, rfl⟩ | ⟨hne, hi⟩
        · exact Or.inr rfl
        · exact Or.inl ((hm.columns y w).2 ⟨i, hi⟩)
    · rw [updAt_other _ _ _ _ hjy, hm.columns j w]
      refine exists_congr fun i => ?_
      rw [setV_other _ _ _ _ _ _ (by rintro ⟨-, rfl⟩; exact hjy rfl)]
  · intro b w
    show (insert_into_bitmap c.blocks (get_block_id x y) v b).testBit w = true ↔ _
    rw [insert_into_bitmap]
    by_cases hb : b = get_block_id x y
    · rw [hb, updAt_same, testBit_or_bit]
      simp only [Bool.or_eq_true, decide_eq_true_eq]
      constructor
      · rintro (h1 | rfl)
        · rcases (hm.blocks _ w).1 h1 with ⟨p, hpb, hp⟩
          have hpxy : ¬(p.1 = x ∧ p.2 = y) := by
            rintro ⟨h1', h2'⟩
            rw [h1', h2', hempty] at hp
            cases hp
          exact ⟨p, hpb, by rw [setV_other _ _ _ _ _ _ hpxy]; exact hp⟩
        · exact ⟨(x, y), rfl, setV_same _ _ _ _⟩
      · rintro ⟨p, hpb, hp⟩
        rcases setV_cases hp with ⟨-, -, rfl⟩ | ⟨hne, hp⟩
        · exact Or.inr rfl
        · exact Or.inl ((hm.blocks _ w).2 ⟨p, hpb, hp⟩)
    · rw [updAt_other _ _ _ _ hb, hm.blocks b w]
      refine exists_congr fun p => ?_
      constructor
      · rintro ⟨hpb, hp⟩
        refine ⟨hpb, ?_⟩
        rw [setV_other _ _ _ _ _ _ ?_]
        · exact hp
        · rintro ⟨h1', h2'⟩
          exact hb (by rw [← hpb, h1', h2'])
      · rintro ⟨hpb, hp⟩
        refine ⟨hpb, ?_⟩
        rcases setV_cases hp with ⟨h1', h2', rfl⟩ | ⟨hne, hp⟩
        · exact absurd (by rw [← hpb, h1', h2']) hb
        · exact hp

/-! ### Characterization of `insert` -/

theorem eraseV_of_none {gv : VGrid} {x y : Fin 9} (h : gv x y = none) :
    eraseV gv x y = gv := by
  funext i j
  by_cases hij : i = x ∧ j = y
  · rw [eraseV, if_pos hij, hij.1, hij.2, h]
  · rw [eraseV_other _ _ _ _ _ hij]

theorem vals_congr {c c' : Core} (h : c'.grid = c.grid) : c'.vals = c.vals := by
  funext i j
  show (c'.grid i j).1 = (c.grid i j).1
  rw [h]

/-- The first removal on an occupied cell produces the pending state. -/
theorem pendOk_start (c : Core) (x y : Fin 9) (w : Nat) (h : CoreOk c)
    (ho : (c.grid x y).1 = some w) :
    PendOk (update_maps_remove c x y w) x y w := by
  have hchars := update_maps_remove_char c x y w c.vals h.chars h.valid h.digits ho
  exact ⟨ho, hchars, h.valid, h.digits⟩

/-- In a pending state, the re-removal done by the next `insert` call is the
identity. -/
theorem pend_remove_id (c : Core) (x y : Fin 9) (w : Nat)
    (hp : PendOk c x y w) : update_maps_remove c x y w = c := by
  have hw9 : 1 ≤ w ∧ w ≤ 9 := hp.digits x y w hp.cell
  have hlow : MasksLow c := masksLow_of_char hp.chars (digitsV_erase hp.digits x y)
  have hrow : (c.rows x).testBit w = false := by
    cases hr : (c.rows x).testBit w
    · rfl
    · rcases (hp.chars.rows x w).1 hr with ⟨j, hj⟩
      have hjy : j = y := hp.valid.rows x j y w (eraseV_le hj) hp.cell
      rw [eraseV, if_pos ⟨rfl, hjy⟩] at hj
      cases hj
  have hcol : (c.columns y).testBit w = false := by
    cases hr : (c.columns y).testBit w
    · rfl
    · rcases (hp.chars.columns y w).1 hr with ⟨i, hi⟩
      have hix : i = x := hp.valid.columns i x y w (eraseV_le hi) hp.cell
      rw [eraseV, if_pos ⟨hix, rfl⟩] at hi
      cases hi
  have hblk : (c.blocks (get_block_id x y)).testBit w = false := by
    cases hr : (c.blocks (get_block_id x y)).testBit w
    · rfl
    · rcases (hp.chars.blocks _ w).1 hr with ⟨p, hpb, hpv⟩
      have hpeq : p = (x, y) :=
        hp.valid.blocks p (x, y) w hpb (eraseV_le hpv) hp.cell
      rw [eraseV, if_pos ⟨by rw [hpeq], by rw [hpeq]⟩] at hpv
      cases hpv
  exact update_maps_remove_id c x y w (by omega) hlow hrow hcol hblk

theorem insertB_empty_conflict (c : Core) (x y : Fin 9) (v : Nat)
    (cs : CellState) (hm : MasksChar c c.vals) (he : (c.grid x y).1 = none)
    (hc : ConflictV c.vals x y v) :
    insertB c x y (some v) cs = (false, c) := by
  have hadd : update_maps_add c x y v = none :=
    (update_maps_add_none_iff c x y v c.vals hm).2 hc
  simp only [insertB, he, hadd]

theorem insertB_empty_ok (c : Core) (x y : Fin 9) (v : Nat) (cs : CellState)
    (h : CoreOk c) (he : (c.grid x y).1 = none)
    (hnc : ¬ ConflictV c.vals x y v) (h1 : 1 ≤ v) (h9 : v ≤ 9) :
    (insertB c x y (some v) cs).1 = true ∧
    (insertB c x y (some v) cs).2.grid = setCell c.grid x y (some v, cs) ∧
    (insertB c x y (some v) cs).2.prefilled = c.prefilled ∧
    (insertB c x y (some v) cs).2.vals = setV c.vals x y v ∧
    CoreOk (insertB c x y (some v) cs).2 := by
  obtain ⟨c2, hc2⟩ : ∃ c2, update_maps_add c x y v = some c2 := by
    cases hadd : update_maps_add c x y v
    · exact absurd ((update_maps_add_none_iff c x y v c.vals h.chars).1 hadd) hnc
    · exact ⟨_, rfl⟩
  obtain ⟨hg2, hp2, hm2, -⟩ :=
    update_maps_add_some c x y v c.vals h.chars he c2 hc2
  have hres : insertB c x y (some v) cs =
      (true, { c2 with grid := setCell c2.grid x y (some v, cs) }) := by
    simp only [insertB, he, hc2]
  rw [hres]
  have hv2 : Core.vals { c2 with grid := setCell c2.grid x y (some v, cs) } =
      setV c.vals x y v := by
    rw [vals_set_some, vals_congr hg2]
  refine ⟨rfl, by rw [hg2], by rw [hp2], hv2, ?_⟩
  constructor
  · show MasksChar _ _
    rw [show Core.vals { c2 with grid := setCell c2.grid x y (some v, cs) } =
      setV c.vals x y v from hv2]
    exact ⟨hm2.rows, hm2.columns, hm2.blocks⟩
  · rw [hv2]
    exact validV_set h.valid hnc
  · rw [hv2]
    exact digitsV_set h.digits h1 h9

theorem insertB_clear (c : Core) (x y : Fin 9) (cs : CellState)
    (h : CoreOk c) :
    (insertB c x y none cs).1 = true ∧
    (insertB c x y none cs).2.grid = setCell c.grid x y (none, cs) ∧
    (insertB c x y none cs).2.prefilled = c.prefilled ∧
    (insertB c x y none cs).2.vals = eraseV c.vals x y ∧
    CoreOk (insertB c x y none cs).2 := by
  cases hcell : (c.grid x y).1 with
  | none =>
    have hres : insertB c x y none cs =
        (true, { c with grid := setCell c.grid x y (none, cs) }) := by
      simp only [insertB, hcell]
    rw [hres]
    have hv' : Core.vals { c with grid := setCell c.grid x y (none, cs) } =
        eraseV c.vals x y := vals_set_none c x y cs
    have hee : eraseV c.vals x y = c.vals := eraseV_of_none hcell
    refine ⟨rfl, rfl, rfl, hv', ?_⟩
    constructor
    · show MasksChar _ _
      rw [hv', hee]
      exact ⟨h.chars.rows, h.chars.columns, h.chars.blocks⟩
    · rw [hv', hee]
      exact h.valid
    · rw [hv', hee]
      exact h.digits
  | some w =>
    have hchars := update_maps_remove_char c x y w c.vals h.chars h.valid
      h.digits hcell
    have hres : insertB c x y none cs =
        (true, { update_maps_remove c x y w with
          grid := setCell (update_maps_remove c x y w).grid x y (none, cs) }) := by
      simp only [insertB, hcell]
    rw [hres]
    have hv' : Core.vals { update_maps_remove c x y w with
        grid := setCell (update_maps_remove c x y w).grid x y (none, cs) } =
        eraseV c.vals x y := vals_set_none (update_maps_remove c x y w) x y cs
    refine ⟨rfl, rfl, rfl, hv', ?_⟩
    constructor
    · show MasksChar _ _
      rw [hv']
      exact ⟨hchars.rows, hchars.columns, hchars.blocks⟩
    · rw [hv']
      exact validV_erase h.valid x y
    · rw [hv']
      exact digitsV_erase h.digits x y

theorem insertB_occ_conflict (c : Core) (x y : Fin 9) (v w : Nat)
    (cs : CellState) (h : CoreOk c) (ho : (c.grid x y).1 = some w)
    (hc : ConflictV (eraseV c.vals x y) x y v) :
    insertB c x y (some v) cs = (false, update_maps_remove c x y w) := by
  have hp := pendOk_start c x y w h ho
  have hadd : update_maps_add (update_maps_remove c x y w) x y v = none :=
    (update_maps_add_none_iff _ x y v (eraseV c.vals x y) hp.chars).2 hc
  simp only [insertB, ho, hadd]

theorem insertB_pend_conflict (c : Core) (x y : Fin 9) (v w : Nat)
    (cs : CellState) (hp : PendOk c x y w)
    (hc : ConflictV (eraseV c.vals x y) x y v) :
    insertB c x y (some v) cs = (false, c) := by
  have hid := pend_remove_id c x y w hp
  have hadd : update_maps_add c x y v = none :=
    (update_maps_add_none_iff c x y v (eraseV c.vals x y) hp.chars).2 hc
  simp only [insertB, hp.cell, hid, hadd]

theorem insertB_pend_ok (c : Core) (x y : Fin 9) (v w : Nat) (cs : CellState)
    (hp : PendOk c x y w) (hnc : ¬ ConflictV (eraseV c.vals x y) x y v)
    (h1 : 1 ≤ v) (h9 : v ≤ 9) :
    (insertB c x y (some v) cs).1 = true ∧
    (insertB c x y (some v) cs).2.grid = setCell c.grid x y (some v, cs) ∧
    (insertB c x y (some v) cs).2.prefilled = c.prefilled ∧
    (insertB c x y (some v) cs).2.vals = setV c.vals x y v ∧
    CoreOk (insertB c x y (some v) cs).2 := by
  have hid := pend_remove_id c x y w hp
  obtain ⟨c2, hc2⟩ : ∃ c2, update_maps_add c x y v = some c2 := by
    cases hadd : update_maps_add c x y v
    · exact absurd
        ((update_maps_add_none_iff c x y v (eraseV c.vals x y) hp.chars).1 hadd)
        hnc
    · exact ⟨_, rfl⟩
  obtain ⟨hg2, hp2, hm2, -⟩ := update_maps_add_some c x y v (eraseV c.vals x y)
    hp.chars (by rw [eraseV, if_pos ⟨rfl, rfl⟩]) c2 hc2
  have hres : insertB c x y (some v) cs =
      (true, { c2 with grid := setCell c2.grid x y (some v, cs) }) := by
    simp only [insertB, hp.cell, hid, hc2]
  rw [hres]
  have hv2 : Core.vals { c2 with grid := setCell c2.grid x y (some v, cs) } =
      setV c.vals x y v := by
    rw [vals_set_some, vals_congr hg2]
  have hm2' : MasksChar c2 (setV c.vals x y v) := by
    rw [← setV_eraseV c.vals x y v]
    exact hm2
  refine ⟨rfl, by rw [hg2], by rw [hp2], hv2, ?_⟩
  constructor
  · show MasksChar _ _
    rw [hv2]
    exact ⟨hm2'.rows, hm2'.columns, hm2'.blocks⟩
  · rw [hv2, ← setV_eraseV c.vals x y v]
    exact validV_set (validV_erase hp.valid x y) hnc
  · rw [hv2, ← setV_eraseV c.vals x y v]
    exact digitsV_set (digitsV_erase hp.digits x y) h1 h9

theorem insertB_pend_clear (c : Core) (x y : Fin 9) (w : Nat) (cs : CellState)
    (hp : PendOk c x y w) :
    (insertB c x y none cs).1 = true ∧
    (insertB c x y none cs).2.grid = setCell c.grid x y (none, cs) ∧
    (insertB c x y none cs).2.prefilled = c.prefilled ∧
    (insertB c x y none cs).2.vals = eraseV c.vals x y ∧
    CoreOk (insertB c x y none cs).2 := by
  have hid := pend_remove_id c x y w hp
  have hres : insertB c x y none cs =
      (true, { c with grid := setCell c.grid x y (none, cs) }) := by
    simp only [insertB, hp.cell, hid]
  rw [hres]
  have hv' : Core.vals { c with grid := setCell c.grid x y (none, cs) } =
      eraseV c.vals x y := vals_set_none c x y cs
  refine ⟨rfl, rfl, rfl, hv', ?_⟩
  constructor
  · show MasksChar _ _
    rw [hv']
    exact ⟨hp.chars.rows, hp.chars.columns, hp.chars.blocks⟩
  · rw [hv']
    exact validV_erase hp.valid x y
  · rw [hv']
    exact digitsV_erase hp.digits x y

theorem fetchStep_inv (c : Core) (P : List (Fin 9 × Fin 9))
    (acc : Nat × Option (Fin 9 × Fin 9)) (q : Fin 9 × Fin 9)
    (h : FetchInv c P acc) : FetchInv c (P ++ [q]) (fetchStep c acc q) := by
  rw [fetchStep]
  by_cases hq : (c.grid q.1 q.2).1 = none
  · rw [if_pos hq]
    by_cases hs : cellScore c q > acc.1
    · rw [if_pos hs]
      rcases h with ⟨hacc, hall⟩ | ⟨p, l1, l2, hacc, hP, hpe, hpp, hstrict, hle⟩
      · refine Or.inr ⟨q, P, [], rfl, rfl, hq, ?_, ?_, ?_⟩
        · rw [hacc] at hs
          exact hs
        · intro q' hq' he
          rw [hall q' hq' he]
          rw [hacc] at hs
          exact hs
        · intro q' hq' he
          rcases List.mem_append.1 hq' with h' | h'
          · rw [hall q' h' he]
            exact Nat.zero_le _
          · rcases List.mem_singleton.1 h' with rfl
            exact Nat.le_refl _
      · rw [hacc] at hs
        refine Or.inr ⟨q, P, [], rfl, rfl, hq, by omega, ?_, ?_⟩
        · intro q' hq' he
          have := hle q' hq' he
          omega
        · intro q' hq' he
          rcases List.mem_append.1 hq' with h' | h'
          · have := hle q' h' he
            omega
          · rcases List.mem_singleton.1 h' with rfl
            exact Nat.le_refl _
    · rw [if_neg hs]
      rcases h with ⟨hacc, hall⟩ | ⟨p, l1, l2, hacc, hP, hpe, hpp, hstrict, hle⟩
      · refine Or.inl ⟨hacc, ?_⟩
        intro q' hq' he
        rcases List.mem_append.1 hq' with h' | h'
        · exact hall q' h' he
        · rcases List.mem_singleton.1 h' with rfl
          rw [hacc] at hs
          omega
      · refine Or.inr ⟨p, l1, l2 ++ [q], hacc, by rw [hP]; simp, hpe, hpp,
          hstrict, ?_⟩
        intro q' hq' he
        rcases List.mem_append.1 hq' with h' | h'
        · exact hle q' h' he
        · rcases List.mem_singleton.1 h' with rfl
          rw [hacc] at hs
          omega
  · rw [if_neg hq]
    rcases h with ⟨hacc, hall⟩ | ⟨p, l1, l2, hacc, hP, hpe, hpp, hstrict, hle⟩
    · refine Or.inl ⟨hacc, ?_⟩
      intro q' hq' he
      rcases List.mem_append.1 hq' with h' | h'
      · exact hall q' h' he
      · rcases List.mem_singleton.1 h' with rfl
        exact absurd he hq
    · refine Or.inr ⟨p, l1, l2 ++ [q], hacc, by rw [hP]; simp, hpe, hpp,
        hstrict, ?_⟩
      intro q' hq' he
      rcases List.mem_append.1 hq' with h' | h'
      · exact hle q' h' he
      · rcases List.mem_singleton.1 h' with rfl
        exact absurd he hq

theorem fetch_spec (c : Core) :
    FetchInv c posList (posList.foldl (fetchStep c) (0, none)) := by
  suffices hgen : ∀ (l P : List (Fin 9 × Fin 9)) (acc : Nat × Option (Fin 9 × Fin 9)),
      FetchInv c P acc → FetchInv c (P ++ l) (l.foldl (fetchStep c) acc) by
    have h0 : FetchInv c [] ((0 : Nat), (none : Option (Fin 9 × Fin 9))) :=
      Or.inl ⟨rfl, fun q hq => absurd hq (List.not_mem_nil q)⟩
    have := hgen posList [] (0, none) h0
    rwa [List.nil_append] at this
  intro l
  induction l with
  | nil =>
    intro P acc h
    rw [List.foldl_nil, List.append_nil]
    exact h
  | cons q l ih =>
    intro P acc h
    rw [List.foldl_cons, show P ++ q :: l = (P ++ [q]) ++ l by simp]
    exact ih (P ++ [q]) _ (fetchStep_inv c P acc q h)

theorem fetch_some_empty (c : Core) (p : Fin 9 × Fin 9)
    (h : fetch_next_empty_cell c = some p) : (c.grid p.1 p.2).1 = none := by
  rcases fetch_spec c with ⟨hacc, -⟩ | ⟨p', l1, l2, hacc, -, hpe, -, -, -⟩
  · rw [fetch_next_empty_cell, hacc] at h
    cases h
  · rw [fetch_next_empty_cell, hacc] at h
    cases h
    exact hpe

theorem tryDigits_gt9 (p : Fin 9 × Fin 9) (k : Nat) (c : Core) (i : Nat)
    (hi : i > 9) : tryDigits p k c i = (false, c) := by
  cases k with
  | zero => rfl
  | succ k => rw [tryDigits, if_pos hi]

/-- On an occupied cell with consistent masks, `insert` behaves as on the
pending state obtained by first removing the stored digit's bits: the
internal removal happens either way. -/
theorem insertB_occ_eq_pend (c : Core) (x y : Fin 9) (w : Nat)
    (val : Option Nat) (cs : CellState) (h : CoreOk c)
    (ho : (c.grid x y).1 = some w) :
    insertB c x y val cs =
      insertB (update_maps_remove c x y w) x y val cs := by
  have hp := pendOk_start c x y w h ho
  have hcell1 : ((update_maps_remove c x y w).grid x y).1 = some w := ho
  have hid := pend_remove_id _ x y w hp
  simp only [insertB, ho, hcell1, hid]

theorem tryDigits_occ_eq (p : Fin 9 × Fin 9) (k : Nat) (c : Core) (w : Nat)
    (i : Nat) (h : CoreOk c) (ho : (c.grid p.1 p.2).1 = some w)
    (hi : ¬ i > 9) :
    tryDigits p (k + 1) c i = tryDigits p (k + 1) (update_maps_remove c p.1 p.2 w) i := by
  rw [tryDigits, tryDigits, if_neg hi, if_neg hi,
    insertB_occ_eq_pend c p.1 p.2 w (some i) CellState.normal h ho]

/-- Full behavior of the backtracking digit loop started in a pending state:
the result is a consistent core that differs from the input only at the
retried cell, which ends holding either a digit (written with `Normal`
state) or nothing. -/
theorem tryDigits_spec (p : Fin 9 × Fin 9) :
    ∀ (k : Nat) (i : Nat) (c : Core) (w : Nat), PendOk c p.1 p.2 w →
    1 ≤ i → i ≤ 9 → 10 ≤ k + i →
    CoreOk (tryDigits p k c i).2 ∧
    (tryDigits p k c i).2.prefilled = c.prefilled ∧
    (∀ qi qj : Fin 9, ¬(qi = p.1 ∧ qj = p.2) →
      (tryDigits p k c i).2.grid qi qj = c.grid qi qj) ∧
    ((∃ d, 1 ≤ d ∧ d ≤ 9 ∧
        (tryDigits p k c i).2.grid p.1 p.2 = (some d, CellState.normal)) ∨
      (tryDigits p k c i).2.grid p.1 p.2 = (none, CellState.normal)) := by
  intro k
  induction k with
  | zero =>
    intro i c w hp h1 h9 hk
    omega
  | succ k ih =>
    intro i c w hp h1 h9 hk
    rw [tryDigits, if_neg (by omega : ¬ i > 9)]
    by_cases hc : ConflictV (eraseV c.vals p.1 p.2) p.1 p.2 i
    · simp only [insertB_pend_conflict c p.1 p.2 i w CellState.normal hp hc]
      by_cases hi9 : i = 9
      · rw [if_pos hi9]
        obtain ⟨-, hg, hpr, -, hok⟩ :=
          insertB_pend_clear c p.1 p.2 w CellState.normal hp
        refine ⟨hok, hpr, ?_, Or.inr ?_⟩
        · intro qi qj hq
          rw [hg, setCell_other _ _ _ _ _ _ hq]
        · rw [hg, setCell_same]
      · rw [if_neg hi9]
        exact ih (i + 1) c w hp (by omega) (by omega) (by omega)
    · obtain ⟨hb, hg, hpr, -, hok⟩ :=
        insertB_pend_ok c p.1 p.2 i w CellState.normal hp hc h1 h9
      set c2 := (insertB c p.1 p.2 (some i) CellState.normal).2 with hc2
      have heq : insertB c p.1 p.2 (some i) CellState.normal = (true, c2) :=
        Prod.ext hb rfl
      simp only [heq]
      refine ⟨hok, hpr, ?_, Or.inl ⟨i, h1, h9, ?_⟩⟩
      · intro qi qj hq
        rw [hg, setCell_other _ _ _ _ _ _ hq]
      · rw [hg, setCell_same]

/-- Full behavior of the descending digit loop on an empty cell of a
consistent board. -/
theorem descendTry_spec (p : Fin 9 × Fin 9) (se : Bool) :
    ∀ (k : Nat) (i : Nat) (c : Core), CoreOk c →
    (c.grid p.1 p.2).1 = none → 1 ≤ i → i ≤ 9 → 10 ≤ k + i →
    (∀ c', descendTry p se k c i = DescendRes.success c' →
      CoreOk c' ∧ c'.prefilled = c.prefilled ∧
      (∀ qi qj : Fin 9, ¬(qi = p.1 ∧ qj = p.2) → c'.grid qi qj = c.grid qi qj) ∧
      ∃ d, 1 ≤ d ∧ d ≤ 9 ∧ c'.grid p.1 p.2 = (some d, CellState.normal)) ∧
    (∀ c', descendTry p se k c i = DescendRes.exhaustedContinue c' →
      CoreOk c' ∧ c'.prefilled = c.prefilled ∧
      (∀ qi qj : Fin 9, ¬(qi = p.1 ∧ qj = p.2) → c'.grid qi qj = c.grid qi qj) ∧
      c'.grid p.1 p.2 = (none, CellState.normal)) := by
  intro k
  induction k with
  | zero =>
    intro i c hok he h1 h9 hk
    omega
  | succ k ih =>
    intro i c hok he h1 h9 hk
    rw [descendTry]
    by_cases hc : ConflictV c.vals p.1 p.2 i
    · simp only [insertB_empty_conflict c p.1 p.2 i CellState.normal hok.chars he hc]
      by_cases hi9 : i = 9
      · rw [if_pos hi9]
        cases se with
        | true =>
          refine ⟨?_, ?_⟩
          · intro c' hc'
            cases hc'
          · intro c' hc'
            cases hc'
        | false =>
          obtain ⟨-, hg, hpr, -, hok'⟩ :=
            insertB_clear c p.1 p.2 CellState.normal hok
          refine ⟨?_, ?_⟩
          · intro c' hc'
            cases hc'
          · intro c' hc'
            cases hc'
            refine ⟨hok', hpr, ?_, ?_⟩
            · intro qi qj hq
              rw [hg, setCell_other _ _ _ _ _ _ hq]
            · rw [hg, setCell_same]
      · rw [if_neg hi9]
        exact ih (i + 1) c hok he (by omega) (by omega) (by omega)
    · obtain ⟨hb, hg, hpr, -, hok'⟩ :=
        insertB_empty_ok c p.1 p.2 i CellState.normal hok he hc h1 h9
      set c2 := (insertB c p.1 p.2 (some i) CellState.normal).2 with hc2
      have heq : insertB c p.1 p.2 (some i) CellState.normal = (true, c2) :=
        Prod.ext hb rfl
      simp only [heq]
      refine ⟨?_, ?_⟩
      · intro c' hc'
        cases hc'
        refine ⟨hok', hpr, ?_, ⟨i, h1, h9, ?_⟩⟩
        · intro qi qj hq
          rw [hg, setCell_other _ _ _ _ _ _ hq]
        · rw [hg, setCell_same]
      · intro c' hc'
        cases hc'

theorem TouchG.refl (c₀ : Core) : TouchG c₀ c₀ := fun i j => Or.inl rfl

theorem solutionsBlock_inl (st st' : SolveSt)
    (h : solutionsBlock st = Sum.inl st') :
    st'.c = st.c ∧ st'.stack = st.stack := by
  rw [solutionsBlock] at h
  by_cases h1 : fetch_next_empty_cell st.c = none ∧ st.deadEnd = false
  · rw [if_pos h1] at h
    by_cases h2 : st.solutions + 1 ≥ 2
    · rw [if_pos h2] at h
      by_cases h3 : st.initialSolution ≠ [] ∧ st.initialSolution = to_str st.c
      · rw [if_pos h3] at h
        cases h
      · rw [if_neg h3] at h
        cases h
    · rw [if_neg h2] at h
      cases h
      exact ⟨rfl, rfl⟩
  · rw [if_neg h1] at h
    cases h
    exact ⟨rfl, rfl⟩

theorem solutionsBlock_inr (st : SolveSt) (r : Bool × Core × Grid)
    (h : solutionsBlock st = Sum.inr r) : r.2.1 = st.c := by
  rw [solutionsBlock] at h
  by_cases h1 : fetch_next_empty_cell st.c = none ∧ st.deadEnd = false
  · rw [if_pos h1] at h
    by_cases h2 : st.solutions + 1 ≥ 2
    · rw [if_pos h2] at h
      by_cases h3 : st.initialSolution ≠ [] ∧ st.initialSolution = to_str st.c
      · rw [if_pos h3] at h
        cases h
        rfl
      · rw [if_neg h3] at h
        cases h
        rfl
    · rw [if_neg h2] at h
      cases h
  · rw [if_neg h1] at h
    cases h

/-- The main invariant theorem for `solve`'s loop: a completed run started
from an invariant-satisfying state ends in a consistent core with the same
prefilled map that differs from `c₀` only on originally-empty cells. -/
theorem solveGo_inv (c₀ : Core) :
    ∀ (fuel : Nat) (st : SolveSt) (b : Bool) (cf : Core) (g : Grid),
    solveGo fuel st = some (b, cf, g) → LoopInv c₀ st →
    CoreOk cf ∧ cf.prefilled = c₀.prefilled ∧ TouchG c₀ cf := by
  intro fuel
  induction fuel with
  | zero =>
    intro st b cf g h hinv
    rw [solveGo] at h
    exact Option.noConfusion h
  | succ fuel ih =>
    intro st b cf g h hinv
    rw [solveGo] at h
    by_cases h0 : fetch_next_empty_cell st.c = none ∧ st.stack = []
    · rw [if_pos h0] at h
      simp only [Option.some_inj, Prod.mk.injEq] at h
      obtain ⟨-, hc, -⟩ := h
      rw [← hc]
      exact ⟨hinv.ok, hinv.pref, hinv.touch⟩
    · rw [if_neg h0] at h
      cases hblk : solutionsBlock st with
      | inr r =>
        simp only [hblk] at h
        have hrc := solutionsBlock_inr st r hblk
        simp only [Option.some_inj] at h
        rw [h] at hrc
        rw [show cf = st.c from hrc]
        exact ⟨hinv.ok, hinv.pref, hinv.touch⟩
      | inl st1 =>
        simp only [hblk] at h
        obtain ⟨hc1, hs1⟩ := solutionsBlock_inl st st1 hblk
        have hinv1 : LoopInv c₀ st1 :=
          ⟨hc1 ▸ hinv.ok, hc1 ▸ hinv.pref, hc1 ▸ hinv.touch,
            fun q hq => hinv.stack q (hs1 ▸ hq)⟩
        by_cases hde : st1.deadEnd = true
        · rw [if_pos hde] at h
          cases hstk : st1.stack with
          | nil =>
            simp only [hstk] at h
            exact ih _ _ _ _ h
              ⟨hinv1.ok, hinv1.pref, hinv1.touch, fun q hq => by cases hq⟩
          | cons pos rest =>
            simp only [hstk] at h
            have hmempos : pos ∈ st1.stack := by rw [hstk]; exact List.mem_cons_self _ _
            have hposE : (c₀.grid pos.1 pos.2).1 = none := hinv1.stack pos hmempos
            have hrest : ∀ q ∈ rest, (c₀.grid q.1 q.2).1 = none := by
              intro q hq
              exact hinv1.stack q (by rw [hstk]; exact List.mem_cons_of_mem _ hq)
            cases hcell : (st1.c.grid pos.1 pos.2).1 with
            | none =>
              simp only [hcell] at h
              simp only [Option.some_inj, Prod.mk.injEq] at h
              obtain ⟨-, hc, -⟩ := h
              rw [← hc]
              exact ⟨hinv1.ok, hinv1.pref, hinv1.touch⟩
            | some v =>
              simp only [hcell] at h
              have hv19 : 1 ≤ v ∧ v ≤ 9 := hinv1.ok.digits pos.1 pos.2 v hcell
              by_cases hv9 : v = 9
              · rw [if_pos hv9] at h
                obtain ⟨-, hg, hpr, -, hok⟩ :=
                  insertB_clear st1.c pos.1 pos.2 CellState.normal hinv1.ok
                rw [tryDigits_gt9 pos 9 _ (v + 1) (by omega)] at h
                have hinv2 : LoopInv c₀
                    { st1 with
                      c := (insertB st1.c pos.1 pos.2 none CellState.normal).2,
                      stack := rest } := by
                  refine ⟨hok, by rw [hpr]; exact hinv1.pref, ?_, hrest⟩
                  intro i j
                  by_cases hij : i = pos.1 ∧ j = pos.2
                  · refine Or.inr ⟨by rw [hij.1, hij.2]; exact hposE, none, ?_⟩
                    rw [hg, hij.1, hij.2, setCell_same]
                  · rcases hinv1.touch i j with ht | ⟨hte, ov, hts⟩
                    · refine Or.inl ?_
                      rw [hg, setCell_other _ _ _ _ _ _ hij, ht]
                    · refine Or.inr ⟨hte, ov, ?_⟩
                      rw [hg, setCell_other _ _ _ _ _ _ hij, hts]
                exact ih _ _ _ _ h hinv2
              · rw [if_neg hv9] at h
                rw [tryDigits_occ_eq pos 8 st1.c v (v + 1) hinv1.ok hcell
                  (by omega)] at h
                have hpend := pendOk_start st1.c pos.1 pos.2 v hinv1.ok hcell
                obtain ⟨hok2, hpr2, hoff2, hat2⟩ :=
                  tryDigits_spec pos 9 (v + 1)
                    (update_maps_remove st1.c pos.1 pos.2 v) v hpend
                    (by omega) (by omega) (by omega)
                rcases htd : tryDigits pos 9
                    (update_maps_remove st1.c pos.1 pos.2 v) (v + 1) with ⟨b2, c2⟩
                rw [htd] at hok2 hpr2 hoff2 hat2
                have htouch2 : TouchG c₀ c2 := by
                  intro i j
                  by_cases hij : i = pos.1 ∧ j = pos.2
                  · rcases hat2 with ⟨d, -, -, hat⟩ | hat
                    · refine Or.inr ⟨by rw [hij.1, hij.2]; exact hposE, some d, ?_⟩
                      rw [hij.1, hij.2, hat]
                    · refine Or.inr ⟨by rw [hij.1, hij.2]; exact hposE, none, ?_⟩
                      rw [hij.1, hij.2, hat]
                  · rcases hinv1.touch i j with ht | ⟨hte, ov, hts⟩
                    · exact Or.inl (by rw [hoff2 i j hij]; exact ht)
                    · exact Or.inr ⟨hte, ov, by rw [hoff2 i j hij]; exact hts⟩
                have hpref2 : c2.prefilled = c₀.prefilled := by
                  rw [hpr2]; exact hinv1.pref
                cases b2 with
                | true =>
                  simp only [htd] at h
                  exact ih _ _ _ _ h ⟨hok2, hpref2, htouch2, by
                    intro q hq
                    rcases List.mem_cons.1 hq with rfl | hq
                    · exact hposE
                    · exact hrest q hq⟩
                | false =>
                  simp only [htd] at h
                  exact ih _ _ _ _ h ⟨hok2, hpref2, htouch2, hrest⟩
        · rw [if_neg hde] at h
          cases hnec : fetch_next_empty_cell st1.c with
          | none =>
            simp only [hnec] at h
            simp only [Option.some_inj, Prod.mk.injEq] at h
            obtain ⟨-, hc, -⟩ := h
            rw [← hc]
            exact ⟨hinv1.ok, hinv1.pref, hinv1.touch⟩
          | some pos =>
            simp only [hnec] at h
            have hposEmpty : (st1.c.grid pos.1 pos.2).1 = none :=
              fetch_some_empty _ _ hnec
            have hposE : (c₀.grid pos.1 pos.2).1 = none := by
              rcases hinv1.touch pos.1 pos.2 with ht | ⟨hte, -⟩
              · rw [← ht]; exact hposEmpty
              · exact hte
            obtain ⟨hsucc, hcont⟩ :=
              descendTry_spec pos (decide (st1.stack = [])) 9 1 st1.c hinv1.ok
                hposEmpty (by omega) (by omega) (by omega)
            cases hdt : descendTry pos (decide (st1.stack = [])) 9 st1.c 1 with
            | success c' =>
              simp only [hdt] at h
              obtain ⟨hok', hpr', hoff', d, -, -, hat'⟩ := hsucc c' hdt
              have htouch' : TouchG c₀ c' := by
                intro i j
                by_cases hij : i = pos.1 ∧ j = pos.2
                · refine Or.inr ⟨by rw [hij.1, hij.2]; exact hposE, some d, ?_⟩
                  rw [hij.1, hij.2, hat']
                · rcases hinv1.touch i j with ht | ⟨hte, ov, hts⟩
                  · exact Or.inl (by rw [hoff' i j hij]; exact ht)
                  · exact Or.inr ⟨hte, ov, by rw [hoff' i j hij]; exact hts⟩
              refine ih _ _ _ _ h ⟨hok', by rw [hpr']; exact hinv1.pref, htouch', ?_⟩
              intro q hq
              rcases List.mem_cons.1 hq with rfl | hq
              · exact hposE
              · exact hinv1.stack q hq
            | exhaustedReturn =>
              simp only [hdt] at h
              simp only [Option.some_inj, Prod.mk.injEq] at h
              obtain ⟨-, hc, -⟩ := h
              rw [← hc]
              exact ⟨hinv1.ok, hinv1.pref, hinv1.touch⟩
            | exhaustedContinue c' =>
              simp only [hdt] at h
              obtain ⟨hok', hpr', hoff', hat'⟩ := hcont c' hdt
              have htouch' : TouchG c₀ c' := by
                intro i j
                by_cases hij : i = pos.1 ∧ j = pos.2
                · refine Or.inr ⟨by rw [hij.1, hij.2]; exact hposE, none, ?_⟩
                  rw [hij.1, hij.2, hat']
                · rcases hinv1.touch i j with ht | ⟨hte, ov, hts⟩
                  · exact Or.inl (by rw [hoff' i j hij]; exact ht)
                  · exact Or.inr ⟨hte, ov, by rw [hoff' i j hij]; exact hts⟩
              exact ih _ _ _ _ h
                ⟨hok', by rw [hpr']; exact hinv1.pref, htouch', hinv1.stack⟩

theorem resetStep_eq_insert (c : Core) (p : Fin 9 × Fin 9) :
    resetStep c p =
      if c.prefilled p.1 p.2 ≠ none ∨
          (c.grid p.1 p.2).2 = CellState.userMarkedDefault then c
      else (insertB c p.1 p.2 none ((c.grid p.1 p.2).2)).2 := by
  by_cases hkeep : c.prefilled p.1 p.2 ≠ none ∨
      (c.grid p.1 p.2).2 = CellState.userMarkedDefault
  · rw [resetStep, if_pos hkeep, if_pos hkeep]
  · rw [resetStep, if_neg hkeep, if_neg hkeep]
    cases hcell : (c.grid p.1 p.2).1 <;> simp only [insertB, hcell] <;> rfl

theorem resetStep_spec (c : Core) (p : Fin 9 × Fin 9) (h : CoreOk c) :
    CoreOk (resetStep c p) ∧ (resetStep c p).prefilled = c.prefilled ∧
    (resetStep c p).grid p.1 p.2 = resetTarget c p.1 p.2 ∧
    (∀ i j : Fin 9, ¬(i = p.1 ∧ j = p.2) →
      (resetStep c p).grid i j = c.grid i j) := by
  rw [resetStep_eq_insert]
  by_cases hkeep : c.prefilled p.1 p.2 ≠ none ∨
      (c.grid p.1 p.2).2 = CellState.userMarkedDefault
  · rw [if_pos hkeep]
    exact ⟨h, rfl, by rw [resetTarget, if_pos hkeep], fun i j _ => rfl⟩
  · rw [if_neg hkeep]
    obtain ⟨-, hg, hpr, -, hok⟩ :=
      insertB_clear c p.1 p.2 ((c.grid p.1 p.2).2) h
    refine ⟨hok, hpr, ?_, ?_⟩
    · rw [hg, setCell_same, resetTarget, if_neg hkeep]
    · intro i j hij
      rw [hg, setCell_other _ _ _ _ _ _ hij]

theorem reset_fold (c : Core) :
    ∀ (l : List (Fin 9 × Fin 9)) (c' : Core), l.Nodup → CoreOk c' →
    c'.prefilled = c.prefilled →
    (∀ p : Fin 9 × Fin 9, p ∈ l → c'.grid p.1 p.2 = c.grid p.1 p.2) →
    CoreOk (l.foldl resetStep c') ∧
    (l.foldl resetStep c').prefilled = c.prefilled ∧
    (∀ p : Fin 9 × Fin 9, p ∈ l →
      (l.foldl resetStep c').grid p.1 p.2 = resetTarget c p.1 p.2) ∧
    (∀ p : Fin 9 × Fin 9, ¬ p ∈ l →
      (l.foldl resetStep c').grid p.1 p.2 = c'.grid p.1 p.2) := by
  intro l
  induction l with
  | nil =>
    intro c' hnd hok hpr huntouched
    exact ⟨hok, hpr, fun p hp => absurd hp (List.not_mem_nil p), fun p hp => rfl⟩
  | cons q l ih =>
    intro c' hnd hok hpr huntouched
    rw [List.foldl_cons]
    obtain ⟨hok1, hpr1, hat1, hoff1⟩ := resetStep_spec c' q hok
    have hgq : c'.grid q.1 q.2 = c.grid q.1 q.2 :=
      huntouched q (List.mem_cons_self _ _)
    have htarget_eq : resetTarget c' q.1 q.2 = resetTarget c q.1 q.2 := by
      rw [resetTarget, resetTarget, hpr, hgq]
    have hqnotl : ¬ q ∈ l := (List.nodup_cons.1 hnd).1
    have hstep_pref : (resetStep c' q).prefilled = c.prefilled := by
      rw [hpr1, hpr]
    have hstep_untouched : ∀ p : Fin 9 × Fin 9, p ∈ l →
        (resetStep c' q).grid p.1 p.2 = c.grid p.1 p.2 := by
      intro p hp
      have hpq : ¬(p.1 = q.1 ∧ p.2 = q.2) := by
        rintro ⟨h1, h2⟩
        exact hqnotl (by
          rw [show q = p from (Prod.ext h1 h2).symm]
          exact hp)
      rw [hoff1 p.1 p.2 hpq]
      exact huntouched p (List.mem_cons_of_mem _ hp)
    obtain ⟨hok2, hpr2, hin2, hout2⟩ :=
      ih (resetStep c' q) (List.nodup_cons.1 hnd).2 hok1 hstep_pref
        hstep_untouched
    refine ⟨hok2, hpr2, ?_, ?_⟩
    · intro p hp
      rcases List.mem_cons.1 hp with rfl | hp
      · rw [hout2 p hqnotl, hat1, htarget_eq]
      · exact hin2 p hp
    · intro p hp
      have hpl : ¬ p ∈ l := fun hmem => hp (List.mem_cons_of_mem _ hmem)
      have hpq : ¬(p.1 = q.1 ∧ p.2 = q.2) := by
        rintro ⟨h1, h2⟩
        exact hp (by
          rw [show p = q from Prod.ext h1 h2]
          exact List.mem_cons_self _ _)
      rw [hout2 p hpl, hoff1 p.1 p.2 hpq]

theorem posList_nodup : posList.Nodup := by decide

theorem mem_posList (p : Fin 9 × Fin 9) : p ∈ posList := by
  revert p
  decide

/-- `reset` on a consistent core: the prefilled map is untouched, the grid
becomes `resetTarget`, and the result is again consistent. -/
theorem resetCore_spec (c : Core) (h : CoreOk c) :
    CoreOk (resetCore c) ∧ (resetCore c).prefilled = c.prefilled ∧
    ∀ i j : Fin 9, (resetCore c).grid i j = resetTarget c i j := by
  obtain ⟨hok, hpr, hin, -⟩ :=
    reset_fold c posList c posList_nodup h rfl (fun p hp => rfl)
  exact ⟨hok, hpr, fun i j => hin (i, j) (mem_posList (i, j))⟩

/-! ### Behavior of the duplicate-detection scan -/

/-- A successful `buildStep` on a filled cell is exactly a successful
`update_maps_add`. -/
theorem buildStep_eq_add (g : Grid) (pf : Fin 9 → Fin 9 → Option Nat)
    (r cm b : Fin 9 → Nat) (p : Fin 9 × Fin 9) (v : Nat)
    (hcell : (g p.1 p.2).1 = some v) :
    buildStep g (r, cm, b) p =
      match update_maps_add ⟨g, pf, r, cm, b⟩ p.1 p.2 v with
      | none => Except.error ("duplicate value found in row block or column").data
      | some c2 => Except.ok (c2.rows, c2.columns, c2.blocks) := by
  rw [buildStep, update_maps_add]
  simp only [hcell]
  by_cases hch : check_for_conflict
      [b (get_block_id p.1 p.2), r p.1, cm p.2] v = true
  · rw [if_pos hch, if_pos hch]
  · rw [if_neg hch, if_neg hch]

theorem buildMasksGo_spec (g : Grid) (pf : Fin 9 → Fin 9 → Option Nat) :
    ∀ (l : List (Fin 9 × Fin 9)) (r cm b : Fin 9 → Nat) (gv : VGrid),
    l.Nodup →
    MasksChar ⟨g, pf, r, cm, b⟩ gv → ValidV gv →
    (∀ p : Fin 9 × Fin 9, p ∈ l → gv p.1 p.2 = none) →
    (∀ p : Fin 9 × Fin 9, ¬ p ∈ l → gv p.1 p.2 = (g p.1 p.2).1) →
    ∀ r' cm' b', buildMasksGo g l (r, cm, b) = Except.ok (r', cm', b') →
    MasksChar ⟨g, pf, r', cm', b'⟩ (fun i j => (g i j).1) ∧
    ValidV (fun i j => (g i j).1) := by
  intro l
  induction l with
  | nil =>
    intro r cm b gv hnd hm hval h1 h2 r' cm' b' h
    cases h
    have hgv : gv = fun i j => (g i j).1 := by
      funext i j
      exact h2 (i, j) (List.not_mem_nil _)
    rw [← hgv]
    exact ⟨hm, hval⟩
  | cons q l ih =>
    intro r cm b gv hnd hm hval h1 h2 r' cm' b' h
    rw [buildMasksGo] at h
    have hqnotl : ¬ q ∈ l := (List.nodup_cons.1 hnd).1
    cases hcell : (g q.1 q.2).1 with
    | none =>
      have hstep : buildStep g (r, cm, b) q = Except.ok (r, cm, b) := by
        rw [buildStep]
        simp only [hcell]
      rw [hstep] at h
      have hgv' : ∀ p : Fin 9 × Fin 9, ¬ p ∈ l → gv p.1 p.2 = (g p.1 p.2).1 := by
        intro p hp
        by_cases hpq : p = q
        · rw [hpq, h1 q (List.mem_cons_self _ _), hcell]
        · exact h2 p (by
            intro hmem
            rcases List.mem_cons.1 hmem with h' | h'
            · exact hpq h'
            · exact hp h')
      exact ih r cm b gv (List.nodup_cons.1 hnd).2 hm hval
        (fun p hp => h1 p (List.mem_cons_of_mem _ hp)) hgv' r' cm' b' h
    | some v =>
      rw [buildStep_eq_add g pf r cm b q v hcell] at h
      cases hadd : update_maps_add ⟨g, pf, r, cm, b⟩ q.1 q.2 v with
      | none =>
        rw [hadd] at h
        cases h
      | some c2 =>
        rw [hadd] at h
        have hqe : gv q.1 q.2 = none := h1 q (List.mem_cons_self _ _)
        obtain ⟨hg2, hp2, hm2, hnc2⟩ :=
          update_maps_add_some ⟨g, pf, r, cm, b⟩ q.1 q.2 v gv hm hqe c2 hadd
        have hc2eq : c2 = ⟨g, pf, c2.rows, c2.columns, c2.blocks⟩ := by
          cases c2
          simp only at hg2 hp2
          rw [hg2, hp2]
        have hm2' : MasksChar ⟨g, pf, c2.rows, c2.columns, c2.blocks⟩
            (setV gv q.1 q.2 v) := by
          rw [← hc2eq]
          exact hm2
        have h1' : ∀ p : Fin 9 × Fin 9, p ∈ l → setV gv q.1 q.2 v p.1 p.2 = none := by
          intro p hp
          have hpq : ¬(p.1 = q.1 ∧ p.2 = q.2) := by
            rintro ⟨ha, hb⟩
            exact hqnotl (by rw [← show p = q from Prod.ext ha hb]; exact hp)
          rw [setV_other _ _ _ _ _ _ hpq]
          exact h1 p (List.mem_cons_of_mem _ hp)
        have h2' : ∀ p : Fin 9 × Fin 9, ¬ p ∈ l →
            setV gv q.1 q.2 v p.1 p.2 = (g p.1 p.2).1 := by
          intro p hp
          by_cases hpq : p = q
          · rw [hpq, setV_same, hcell]
          · have hpq' : ¬(p.1 = q.1 ∧ p.2 = q.2) := by
              rintro ⟨ha, hb⟩
              exact hpq (Prod.ext ha hb)
            rw [setV_other _ _ _ _ _ _ hpq']
            exact h2 p (by
              intro hmem
              rcases List.mem_cons.1 hmem with h' | h'
              · exact hpq h'
              · exact hp h')
        exact ih c2.rows c2.columns c2.blocks (setV gv q.1 q.2 v)
          (List.nodup_cons.1 hnd).2 hm2' (validV_set hval hnc2) h1' h2' r' cm' b' h

/-- The masks of an all-zero accumulator describe the everywhere-empty value
grid. -/
theorem masksChar_zero (g : Grid) (pf : Fin 9 → Fin 9 → Option Nat) :
    MasksChar ⟨g, pf, fun _ => 0, fun _ => 0, fun _ => 0⟩
      (fun _ _ => none) := by
  refine ⟨?_, ?_, ?_⟩
  · intro i v
    simp [Nat.zero_testBit]
  · intro j v
    simp [Nat.zero_testBit]
  · intro b v
    simp [Nat.zero_testBit]

theorem validV_none : ValidV (fun _ _ => none) := by
  refine ⟨?_, ?_, ?_⟩ <;> intro _ _ _ _ h <;> cases h

/-- A successful duplicate-detection scan yields masks characterizing the
grid, and certifies that the grid has no row/column/block duplicates. -/
theorem buildMasks_ok (g : Grid) (pf : Fin 9 → Fin 9 → Option Nat)
    (r cm b : Fin 9 → Nat) (h : buildMasks g = Except.ok (r, cm, b)) :
    MasksChar ⟨g, pf, r, cm, b⟩ (fun i j => (g i j).1) ∧
    ValidV (fun i j => (g i j).1) := by
  refine buildMasksGo_spec g pf posList _ _ _ (fun _ _ => none) posList_nodup
    (masksChar_zero g pf) validV_none (fun p hp => rfl)
    (fun p hp => absurd (mem_posList p) hp) r cm b h

/-- `CoreOk` for a core whose masks are (re)computed by the
duplicate-detection scan; both hypotheses are decidable, so this applies to
concrete boards by evaluation. -/
theorem coreOk_of_buildMasks (c : Core)
    (h : buildMasks c.grid = Except.ok (c.rows, c.columns, c.blocks))
    (hd : ∀ i j : Fin 9, 1 ≤ ((c.grid i j).1.getD 1) ∧
      ((c.grid i j).1.getD 1) ≤ 9) : CoreOk c := by
  obtain ⟨hm, hv⟩ := buildMasks_ok c.grid c.prefilled _ _ _ h
  refine ⟨⟨hm.rows, hm.columns, hm.blocks⟩, ⟨hv.rows, hv.columns, hv.blocks⟩, ?_⟩
  intro i j v hcell
  have hd' := hd i j
  rw [show (c.grid i j).1 = some v from hcell] at hd'
  exact hd'

theorem validV_of_decide (gv : VGrid)
    (hr : ∀ i j j' : Fin 9, gv i j = gv i j' → gv i j = none ∨ j = j')
    (hc : ∀ i i' j : Fin 9, gv i j = gv i' j → gv i j = none ∨ i = i')
    (hb : ∀ p q : Fin 9 × Fin 9, get_block_id p.1 p.2 = get_block_id q.1 q.2 →
      gv p.1 p.2 = gv q.1 q.2 → gv p.1 p.2 = none ∨ p = q) : ValidV gv := by
  refine ⟨?_, ?_, ?_⟩
  · intro i j j' v h1 h2
    rcases hr i j j' (by rw [h1, h2]) with h | h
    · rw [h1] at h
      cases h
    · exact h
  · intro i i' j v h1 h2
    rcases hc i i' j (by rw [h1, h2]) with h | h
    · rw [h1] at h
      cases h
    · exact h
  · intro p q v hpq h1 h2
    rcases hb p q hpq (by rw [h1, h2]) with h | h
    · rw [h1] at h
      cases h
    · exact h

theorem digitsV_of_getD (gv : VGrid)
    (h : ∀ i j : Fin 9, 1 ≤ (gv i j).getD 1 ∧ (gv i j).getD 1 ≤ 9) :
    DigitsV gv := by
  intro i j v hv
  have := h i j
  rw [hv] at this
  exact this

/-- A complete valid grid is its own unique completion. -/
theorem completion_of_full (b : VGrid) (hfull : ∀ i j : Fin 9, b i j ≠ none)
    (hval : ValidV b) (hd : DigitsV b) :
    ∀ cv : VGrid, Completion b cv ↔ cv = b := by
  intro cv
  constructor
  · rintro ⟨hcf, hcv, hcd, hext⟩
    funext i j
    cases hb : b i j with
    | none => exact absurd hb (hfull i j)
    | some v => exact hext i j v hb
  · rintro rfl
    exact ⟨hfull, hval, hd, fun i j v hv => hv⟩

/-! ### Parse-failure lemmas for `from_str` -/

theorem from_str_err_count (fuel : Nat) (inp : List Char)
    (h : (splitOnComma (preprocess inp)).length ≠ 81) :
    isErr (from_str fuel inp) = true := by
  rw [from_str, if_pos h]
  rfl

theorem parseCells_err :
    ∀ l : List (List Char), (∃ t ∈ l, isErr (parseCell t) = true) →
    isErr (parseCells l) = true := by
  intro l
  induction l with
  | nil =>
    rintro ⟨t, ht, -⟩
    cases ht
  | cons t ts ih =>
    rintro ⟨t', ht', herr⟩
    rw [parseCells]
    rcases List.mem_cons.1 ht' with rfl | hmem
    · cases hpc : parseCell t' with
      | error e => simp only [hpc]; rfl
      | ok cell =>
        rw [hpc] at herr
        cases herr
    · cases hpc : parseCell t with
      | error e => simp only [hpc]; rfl
      | ok cell =>
        simp only [hpc]
        have hts := ih ⟨t', hmem, herr⟩
        cases hpcs : parseCells ts with
        | error e => simp only [hpcs]; rfl
        | ok cells =>
          rw [hpcs] at hts
          cases hts

theorem from_str_err_of_token (fuel : Nat) (inp : List Char)
    (htok : ∃ t ∈ splitOnComma (preprocess inp), isErr (parseCell t) = true) :
    isErr (from_str fuel inp) = true := by
  by_cases hlen : (splitOnComma (preprocess inp)).length ≠ 81
  · exact from_str_err_count fuel inp hlen
  · rw [from_str, if_neg hlen]
    have herr := parseCells_err _ htok
    cases hpc : parseCells (splitOnComma (preprocess inp)) with
    | error e => simp only [hpc]; rfl
    | ok cells =>
      rw [hpc] at herr
      cases herr

theorem parseCell_err_non_u (tok : List Char)
    (h2 : (trimChars tok).length = 2)
    (hu : ((trimChars tok).map Char.toLower).head? ≠ some 'u') :
    isErr (parseCell tok) = true := by
  have hne : ¬ trimChars tok = [] := by
    intro h
    rw [h] at h2
    cases h2
  rw [parseCell, if_neg hne, if_pos h2, if_neg hu]
  rfl

theorem parseCell_err_range (tok : List Char)
    (hne : trimChars tok ≠ []) (h2 : (trimChars tok).length ≠ 2)
    (v : Nat) (hp : parse_u8 (trimChars tok) = some v)
    (hout : v < 1 ∨ v > 9) : isErr (parseCell tok) = true := by
  rw [parseCell, if_neg hne, if_neg h2, parseDigitToken]
  simp only [hp, if_pos hout]
  rfl

theorem parseCell_err_u_range (tok : List Char)
    (h2 : (trimChars tok).length = 2)
    (hu : ((trimChars tok).map Char.toLower).head? = some 'u')
    (v : Nat) (hp : parse_u8 (((trimChars tok).map Char.toLower).tail) = some v)
    (hout : v < 1 ∨ v > 9) : isErr (parseCell tok) = true := by
  have hne : ¬ trimChars tok = [] := by
    intro h
    rw [h] at h2
    cases h2
  rw [parseCell, if_neg hne, if_pos h2, if_pos hu, parseDigitToken]
  simp only [hp, if_pos hout]
  rfl

theorem parseCell_ok_digit (tok : List Char) (cell : Cell)
    (h : parseCell tok = Except.ok cell) :
    ∀ v : Nat, cell.1 = some v → 1 ≤ v ∧ v ≤ 9 := by
  intro v hv
  have hdt : ∀ (s : List Char) (isUser : Bool),
      parseDigitToken s isUser = Except.ok cell → 1 ≤ v ∧ v ≤ 9 := by
    intro s isUser hok
    rw [parseDigitToken] at hok
    cases hp : parse_u8 s with
    | none =>
      simp only [hp] at hok
      cases hok
      cases hv
    | some val =>
      simp only [hp] at hok
      by_cases hout : val < 1 ∨ val > 9
      · rw [if_pos hout] at hok
        cases hok
      · rw [if_neg hout] at hok
        cases isUser with
        | true =>
          rw [if_pos rfl] at hok
          cases hok
          cases hv
          omega
        | false =>
          rw [if_neg Bool.false_ne_true] at hok
          cases hok
          cases hv
          omega
  rw [parseCell] at h
  by_cases hne : trimChars tok = []
  · rw [if_pos hne] at h
    cases h
    cases hv
  · rw [if_neg hne] at h
    by_cases h2 : (trimChars tok).length = 2
    · rw [if_pos h2] at h
      by_cases hu : ((trimChars tok).map Char.toLower).head? = some 'u'
      · rw [if_pos hu] at h
        exact hdt _ _ h
      · rw [if_neg hu] at h
        cases h
    · rw [if_neg h2] at h
      exact hdt _ _ h

theorem parseCells_digits :
    ∀ (l : List (List Char)) (cells : List Cell),
    parseCells l = Except.ok cells →
    ∀ cell ∈ cells, ∀ v : Nat, cell.1 = some v → 1 ≤ v ∧ v ≤ 9 := by
  intro l
  induction l with
  | nil =>
    intro cells h cell hcell v hv
    cases h
    cases hcell
  | cons t ts ih =>
    intro cells h cell hcell v hv
    rw [parseCells] at h
    cases hpc : parseCell t with
    | error e =>
      rw [hpc] at h
      cases h
    | ok c0 =>
      rw [hpc] at h
      cases hpcs : parseCells ts with
      | error e =>
        rw [hpcs] at h
        cases h
      | ok cells0 =>
        rw [hpcs] at h
        cases h
        rcases List.mem_cons.1 hcell with rfl | hmem
        · exact parseCell_ok_digit t cell hpc v hv
        · exact ih cells0 hpcs cell hmem v hv

/-- Extraction of a completed `solve` call. -/
theorem solveB_some (s : Sudoku) (fuel : Nat) (b : Bool) (s' : Sudoku)
    (h : solveB s fuel = some (b, s')) :
    solveGo fuel ⟨s.core, [], false, 0, [], s.solved_grid⟩ =
      some (b, s'.core, s'.solved_grid) ∧ s'.highlighted = s.highlighted := by
  rw [solveB] at h
  cases hg : solveGo fuel ⟨s.core, [], false, 0, [], s.solved_grid⟩ with
  | none =>
    rw [hg] at h
    cases h
  | some r =>
    obtain ⟨rb, rc, rg⟩ := r
    rw [hg] at h
    simp only [Option.map_some', Option.some_inj, Prod.mk.injEq] at h
    obtain ⟨rfl, rfl⟩ := h
    exact ⟨rfl, rfl⟩

/-- A successful `from_str` returns a board whose grid has no duplicate
digit in any row, column or block, and only digits in `[1, 9]`. -/
theorem from_str_ok_valid (fuel : Nat) (inp : List Char) (b : Sudoku)
    (h : from_str fuel inp = Except.ok b) :
    ValidV (fun i j => (b.core.grid i j).1) ∧
    DigitsV (fun i j => (b.core.grid i j).1) := by
  rw [from_str] at h
  by_cases hlen : (splitOnComma (preprocess inp)).length ≠ 81
  · rw [if_pos hlen] at h
    cases h
  · rw [if_neg hlen] at h
    cases hpc : parseCells (splitOnComma (preprocess inp)) with
    | error e =>
      rw [hpc] at h
      cases h
    | ok cells =>
      simp only [hpc] at h
      cases hbm : buildMasks (gridOfList cells) with
      | error e =>
        rw [hbm] at h
        cases h
      | ok m3 =>
        obtain ⟨r, cm, bm⟩ := m3
        simp only [hbm] at h
        have hok0 : CoreOk ⟨gridOfList cells, prefilledOfCells cells, r, cm, bm⟩ := by
          obtain ⟨hm, hv⟩ := buildMasks_ok (gridOfList cells)
            (prefilledOfCells cells) r cm bm hbm
          refine ⟨hm, hv, ?_⟩
          intro i j v hcell
          have hcell' : (gridOfList cells i j).1 = some v := hcell
          rw [gridOfList] at hcell'
          cases hget : cells.get? (i.val * 9 + j.val) with
          | none =>
            rw [hget] at hcell'
            cases hcell'
          | some cell =>
            rw [hget] at hcell'
            exact parseCells_digits _ cells hpc cell
              (List.get?_mem hget) v hcell'
        cases hsv : solveB ⟨⟨gridOfList cells, prefilledOfCells cells, r, cm,
            bm⟩, gridOfList cells, none⟩ fuel with
        | none =>
          rw [hsv] at h
          cases h
        | some rr =>
          obtain ⟨rb, s'⟩ := rr
          cases rb with
          | false =>
            simp only [hsv] at h
            cases h
          | true =>
            simp only [hsv] at h
            cases h
            obtain ⟨hgo, -⟩ := solveB_some _ fuel true s' hsv
            obtain ⟨hokf, -, -⟩ := solveGo_inv
              ⟨gridOfList cells, prefilledOfCells cells, r, cm, bm⟩ fuel
              _ true s'.core s'.solved_grid hgo
              ⟨hok0, rfl, TouchG.refl _, fun q hq => by cases hq⟩
            obtain ⟨hokr, -, -⟩ := resetCore_spec s'.core hokf
            exact ⟨hokr.valid, hokr.digits⟩

/-- Duplicate digits in the parsed grid are a hard failure. -/
theorem from_str_err_dup (fuel : Nat) (inp : List Char) (g : Grid)
    (hg : parsedGrid inp = some g)
    (hnv : ¬ ValidV (fun i j => (g i j).1)) :
    isErr (from_str fuel inp) = true := by
  rw [parsedGrid] at hg
  by_cases hlen : (splitOnComma (preprocess inp)).length ≠ 81
  · rw [if_pos hlen] at hg
    cases hg
  · rw [if_neg hlen] at hg
    cases hpc : parseCells (splitOnComma (preprocess inp)) with
    | error e =>
      rw [hpc] at hg
      cases hg
    | ok cells =>
      rw [hpc] at hg
      cases hg
      rw [from_str, if_neg hlen]
      simp only [hpc]
      cases hbm : buildMasks (gridOfList cells) with
      | error e => simp only [hbm]; rfl
      | ok m3 =>
        obtain ⟨r, cm, bm⟩ := m3
        obtain ⟨-, hv⟩ := buildMasks_ok (gridOfList cells)
          (prefilledOfCells cells) r cm bm hbm
        exact absurd hv hnv

/-! ### Counting and generator-loop lemmas -/

theorem countP_eq_of_agree {α : Type} :
    ∀ (l : List α) (f f' : α → Bool), (∀ a ∈ l, f a = f' a) →
    l.countP f = l.countP f' := by
  intro l
  induction l with
  | nil => intro f f' h; rfl
  | cons a l ih =>
    intro f f' h
    rw [List.countP_cons, List.countP_cons,
      ih f f' (fun b hb => h b (List.mem_cons_of_mem _ hb)),
      h a (List.mem_cons_self _ _)]

theorem countP_sub_one {α : Type} [DecidableEq α] :
    ∀ (l : List α), l.Nodup → ∀ (f f' : α → Bool) (p : α), p ∈ l →
    f p = true → f' p = false → (∀ q, q ≠ p → f' q = f q) →
    l.countP f' + 1 = l.countP f := by
  intro l
  induction l with
  | nil =>
    intro hnd f f' p hp hf hf' hagree
    exact absurd hp (List.not_mem_nil p)
  | cons a l ih =>
    intro hnd f f' p hp hf hf' hagree
    rw [List.countP_cons, List.countP_cons]
    rcases List.mem_cons.1 hp with rfl | hmem
    · have hcongr : l.countP f' = l.countP f := by
        refine countP_eq_of_agree l f' f ?_
        intro b hb
        have hbp : b ≠ p := by
          rintro rfl
          exact (List.nodup_cons.1 hnd).1 hb
        exact hagree b hbp
      rw [hcongr, hf, hf']
      simp
    · have ha : f' a = f a := by
        refine hagree a ?_
        rintro rfl
        exact (List.nodup_cons.1 hnd).1 hmem
      rw [ha]
      have hrec := ih (List.nodup_cons.1 hnd).2 f f' p hmem hf hf' hagree
      omega

theorem countP_all {α : Type} :
    ∀ (l : List α) (f : α → Bool), (∀ a ∈ l, f a = true) →
    l.countP f = l.length := by
  intro l
  induction l with
  | nil => intro f h; rfl
  | cons a l ih =>
    intro f h
    rw [List.countP_cons, ih f (fun b hb => h b (List.mem_cons_of_mem _ hb)),
      h a (List.mem_cons_self _ _), List.length_cons]
    simp

theorem setCell_clear_cases (g : Grid) (x y : Fin 9) (p : Fin 9 × Fin 9) :
    setCell g x y (none, (g x y).2) p.1 p.2 = g p.1 p.2 ∨
    setCell g x y (none, (g x y).2) p.1 p.2 = (none, (g p.1 p.2).2) := by
  by_cases hpq : p.1 = x ∧ p.2 = y
  · refine Or.inr ?_
    simp only [setCell, if_pos hpq]
    rw [hpq.1, hpq.2]
  · exact Or.inl (setCell_other _ _ _ _ _ _ hpq)

theorem setCell_clear_snd (g : Grid) (x y : Fin 9) (p : Fin 9 × Fin 9) :
    (setCell g x y (none, (g x y).2) p.1 p.2).2 = (g p.1 p.2).2 := by
  rcases setCell_clear_cases g x y p with hc | hc
  · rw [hc]
  · rw [hc]

theorem filledCount_clear (g : Grid) (x y : Fin 9)
    (hf : (g x y).1 ≠ none) :
    filledCount (setCell g x y (none, (g x y).2)) + 1 = filledCount g := by
  refine countP_sub_one posList posList_nodup
    (fun p => ((g p.1 p.2).1).isSome)
    (fun p => ((setCell g x y (none, (g x y).2) p.1 p.2).1).isSome)
    (x, y) (mem_posList (x, y)) ?_ ?_ ?_
  · show ((g x y).1).isSome = true
    cases hcell : (g x y).1 with
    | none => exact absurd hcell hf
    | some d => rfl
  · show ((setCell g x y (none, (g x y).2) x y).1).isSome = false
    rw [setCell_same]
    rfl
  · intro q hq
    show ((setCell g x y (none, (g x y).2) q.1 q.2).1).isSome =
      ((g q.1 q.2).1).isSome
    have hq' : ¬(q.1 = x ∧ q.2 = y) := by
      rintro ⟨h1, h2⟩
      exact hq (Prod.ext h1 h2)
    rw [setCell_other _ _ _ _ _ _ hq']

theorem drawCell_val (rng : Nat → Nat) (r cm b : Fin 9 → Nat) (i j : Fin 9) :
    ∀ (k idx val idx2 idx' : Nat),
    drawCell rng r cm b i j k idx = (some (val, idx2), idx') →
    1 ≤ val ∧ val ≤ 9 := by
  intro k
  induction k with
  | zero =>
    intro idx val idx2 idx' h
    rw [drawCell] at h
    injection h with h1 h2
    exact Option.noConfusion h1
  | succ k ih =>
    intro idx val idx2 idx' h
    simp only [drawCell] at h
    split at h
    · exact ih (idx + 1) val idx2 idx' h
    · injection h with h1 h2
      injection h1 with h1
      injection h1 with hval hidx
      omega

theorem fillGrid_spec (rng : Nat → Nat) :
    ∀ (l : List (Fin 9 × Fin 9)) (g : Grid) (r cm b : Fin 9 → Nat)
      (idx : Nat) (g' : Grid) (r' cm' b' : Fin 9 → Nat) (idx' : Nat),
    fillGrid rng l (g, r, cm, b) idx = (some (g', r', cm', b'), idx') →
    (∀ p : Fin 9 × Fin 9, g' p.1 p.2 = g p.1 p.2 ∨
      ∃ d, 1 ≤ d ∧ d ≤ 9 ∧ g' p.1 p.2 = (some d, (g p.1 p.2).2)) ∧
    (∀ p ∈ l, (g' p.1 p.2).1 ≠ none) := by
  intro l
  induction l with
  | nil =>
    intro g r cm b idx g' r' cm' b' idx' h
    rw [fillGrid] at h
    simp only [Prod.mk.injEq, Option.some.injEq] at h
    obtain ⟨⟨rfl, rfl, rfl, rfl⟩, rfl⟩ := h
    exact ⟨fun p => Or.inl rfl, fun p hp => absurd hp (List.not_mem_nil p)⟩
  | cons q l ih =>
    intro g r cm b idx g' r' cm' b' idx' h
    cases hdc : drawCell rng r cm b q.1 q.2 20 idx with
    | mk res idx1 =>
      cases res with
      | none =>
        simp only [fillGrid, hdc] at h
        injection h with h1 h2
        exact Option.noConfusion h1
      | some vp =>
        obtain ⟨val, idx2⟩ := vp
        simp only [fillGrid, hdc] at h
        obtain ⟨hv1, hv9⟩ :=
          drawCell_val rng r cm b q.1 q.2 20 idx val idx2 idx1 hdc
        obtain ⟨hcells, hfilled⟩ := ih _ _ _ _ _ _ _ _ _ _ h
        have hq : ∀ p : Fin 9 × Fin 9,
            setCell g q.1 q.2 (some val, (g q.1 q.2).2) p.1 p.2 = g p.1 p.2 ∨
            ∃ d, 1 ≤ d ∧ d ≤ 9 ∧
              setCell g q.1 q.2 (some val, (g q.1 q.2).2) p.1 p.2 =
                (some d, (g p.1 p.2).2) := by
          intro p
          by_cases hpq : p.1 = q.1 ∧ p.2 = q.2
          · refine Or.inr ⟨val, hv1, hv9, ?_⟩
            simp only [setCell, if_pos hpq]
            rw [hpq.1, hpq.2]
          · exact Or.inl (setCell_other _ _ _ _ _ _ hpq)
        have hsnd : ∀ p : Fin 9 × Fin 9,
            (setCell g q.1 q.2 (some val, (g q.1 q.2).2) p.1 p.2).2 =
              (g p.1 p.2).2 := by
          intro p
          rcases hq p with h' | ⟨d', hd1', hd9', h'⟩
          · rw [h']
          · rw [h']
        refine ⟨?_, ?_⟩
        · intro p
          rcases hcells p with hc | ⟨d, hd1, hd9, hc⟩
          · rw [hc]
            exact hq p
          · refine Or.inr ⟨d, hd1, hd9, ?_⟩
            rw [hc, hsnd p]
        · intro p hp
          rcases List.mem_cons.1 hp with rfl | hmem
          · rcases hcells p with hc | ⟨d, hd1, hd9, hc⟩
            · rw [hc, setCell_same]
              simp
            · rw [hc]
              simp
          · exact hfilled p hmem

theorem removalLoop_spec (rng : Nat → Nat) :
    ∀ (fuel n : Nat) (g : Grid) (idx : Nat) (g' : Grid) (idx' : Nat),
    removalLoop rng fuel n g idx = some (g', idx') →
    (∀ p : Fin 9 × Fin 9, g' p.1 p.2 = g p.1 p.2 ∨
      g' p.1 p.2 = (none, (g p.1 p.2).2)) ∧
    filledCount g' + n = filledCount g := by
  intro fuel
  induction fuel with
  | zero =>
    intro n g idx g' idx' h
    cases n with
    | zero =>
      rw [removalLoop] at h
      simp only [Option.some.injEq, Prod.mk.injEq] at h
      obtain ⟨rfl, rfl⟩ := h
      exact ⟨fun p => Or.inl rfl, rfl⟩
    | succ n =>
      rw [removalLoop] at h
      exact Option.noConfusion h
  | succ fuel ih =>
    intro n g idx g' idx' h
    cases n with
    | zero =>
      rw [removalLoop] at h
      simp only [Option.some.injEq, Prod.mk.injEq] at h
      obtain ⟨rfl, rfl⟩ := h
      exact ⟨fun p => Or.inl rfl, rfl⟩
    | succ n =>
      simp only [removalLoop] at h
      split at h
      · rename_i hf
        obtain ⟨hcells, hcount⟩ := ih _ _ _ _ _ h
        have hc1 := filledCount_clear g _ _ hf
        refine ⟨?_, by omega⟩
        intro p
        rcases hcells p with hc | hc
        · rw [hc]
          exact setCell_clear_cases g _ _ p
        · rw [hc, setCell_clear_snd]
          exact Or.inr rfl
      · rename_i hf
        exact ih _ _ _ _ _ h

/-! ### Independence of the solve loop from the cached solved grid -/

theorem bool_eq_of_iff {a b : Bool} (h : a = true ↔ b = true) : a = b := by
  cases a <;> cases b <;> simp at h ⊢

theorem core_ext (c c' : Core) (hg : c.grid = c'.grid)
    (hp : c.prefilled = c'.prefilled) (hr : c.rows = c'.rows)
    (hcm : c.columns = c'.columns) (hb : c.blocks = c'.blocks) : c = c' := by
  cases c with
  | mk g p r cm b =>
    cases c' with
    | mk g2 p2 r2 cm2 b2 =>
      have hg' : g = g2 := hg
      have hp' : p = p2 := hp
      have hr' : r = r2 := hr
      have hcm' : cm = cm2 := hcm
      have hb' : b = b2 := hb
      subst hg' hp' hr' hcm' hb'
      rfl

/-- `solutionsBlock` either ignores the cached solved grid (because it
returns, or overwrites it) or passes the state through unchanged. -/
theorem solutionsBlock_sg (c : Core) (stack : List (Fin 9 × Fin 9))
    (de : Bool) (sols : Nat) (init : List Char) (sg g : Grid) :
    solutionsBlock ⟨c, stack, de, sols, init, g⟩ =
      solutionsBlock ⟨c, stack, de, sols, init, sg⟩ ∨
    (solutionsBlock ⟨c, stack, de, sols, init, g⟩ =
        Sum.inl ⟨c, stack, de, sols, init, g⟩ ∧
      solutionsBlock ⟨c, stack, de, sols, init, sg⟩ =
        Sum.inl ⟨c, stack, de, sols, init, sg⟩) := by
  simp only [solutionsBlock]
  by_cases h1 : fetch_next_empty_cell c = none ∧ de = false
  · rw [if_pos h1, if_pos h1]
    exact Or.inl rfl
  · rw [if_neg h1, if_neg h1]
    exact Or.inr ⟨rfl, rfl⟩

/-- The boolean result and final core of `solve`'s loop do not depend on the
cached solved grid the loop starts with. -/
theorem solveGo_sg :
    ∀ (fuel : Nat) (c : Core) (stack : List (Fin 9 × Fin 9)) (de : Bool)
      (sols : Nat) (init : List Char) (sg g : Grid),
    (solveGo fuel ⟨c, stack, de, sols, init, g⟩).map (fun r => (r.1, r.2.1)) =
    (solveGo fuel ⟨c, stack, de, sols, init, sg⟩).map (fun r => (r.1, r.2.1)) := by
  intro fuel
  induction fuel with
  | zero => intro c stack de sols init sg g; rfl
  | succ fuel ih =>
    intro c stack de sols init sg g
    simp only [solveGo]
    by_cases h0 : fetch_next_empty_cell c = none ∧ stack = []
    · rw [if_pos h0, if_pos h0]
      rfl
    · rw [if_neg h0, if_neg h0]
      rcases solutionsBlock_sg c stack de sols init sg g with heq | ⟨hg, hsg⟩
      · rw [heq]
      · simp only [hg, hsg]
        by_cases hde : de = true
        · rw [if_pos hde, if_pos hde]
          cases stack with
          | nil => exact ih c [] false sols init sg g
          | cons pos rest =>
            cases hcell : (c.grid pos.1 pos.2).1 with
            | none =>
              simp only [hcell]
              rfl
            | some v =>
              simp only [hcell]
              cases htd : tryDigits pos 9
                  (if v = 9 then
                    (insertB c pos.1 pos.2 none CellState.normal).2
                  else c) (v + 1) with
              | mk b2 c2 =>
                cases b2 with
                | true =>
                  simp only [htd]
                  exact ih c2 (pos :: rest) false sols init sg g
                | false =>
                  simp only [htd]
                  exact ih c2 rest de sols init sg g
        · rw [if_neg hde, if_neg hde]
          cases hfc : fetch_next_empty_cell c with
          | none =>
            simp only [hfc]
            rfl
          | some pos =>
            simp only [hfc]
            cases hdt : descendTry pos (stack = []) 9 c 1 with
            | success c2 =>
              simp only [hdt]
              exact ih c2 (pos :: stack) de sols init sg g
            | exhaustedReturn =>
              simp only [hdt]
              rfl
            | exhaustedContinue c2 =>
              simp only [hdt]
              exact ih c2 stack true sols init sg g

/-! ### From a completed generator iteration to the returned board -/

/-- The board a successful generator iteration returns: with consistent
freshly built masks, all-`Normal` cell states and in-range digits, the final
`reset` restores exactly the clue board the internal `solve` gate ran on, so
the returned board has one prefilled clue per filled cell of the reduced
grid and passes the uniqueness gate itself. -/
theorem gen_success_spec (g2 : Grid) (rows columns blocks : Fin 9 → Nat)
    (solveFuel : Nat) (s' : Sudoku)
    (hbm : buildMasks g2 = Except.ok (rows, columns, blocks))
    (hstate : ∀ i j : Fin 9, (g2 i j).2 = CellState.normal)
    (hdig : DigitsV (fun i j => (g2 i j).1))
    (hsv : solveB ⟨⟨g2, prefilledOfGrid g2, rows, columns, blocks⟩, g2, none⟩
      solveFuel = some (true, s')) :
    number_of_initial_clues (resetB s') = filledCount g2 ∧
    ∃ s2 : Sudoku, solveB (resetB s') solveFuel = some (true, s2) := by
  obtain ⟨hchars, hvalid⟩ :=
    buildMasks_ok g2 (prefilledOfGrid g2) rows columns blocks hbm
  have hok0 : CoreOk ⟨g2, prefilledOfGrid g2, rows, columns, blocks⟩ :=
    ⟨hchars, hvalid, hdig⟩
  obtain ⟨hgo, hhl⟩ := solveB_some _ solveFuel true s' hsv
  obtain ⟨hsok, hspref, hstouch⟩ :=
    solveGo_inv ⟨g2, prefilledOfGrid g2, rows, columns, blocks⟩ solveFuel
      ⟨⟨g2, prefilledOfGrid g2, rows, columns, blocks⟩, [], false, 0, [], g2⟩
      true s'.core s'.solved_grid hgo
      ⟨hok0, rfl, TouchG.refl _, fun q hq => absurd hq (List.not_mem_nil q)⟩
  obtain ⟨hrok, hrpref, hrgrid⟩ := resetCore_spec s'.core hsok
  have hsstate : ∀ i j : Fin 9, (s'.core.grid i j).2 = CellState.normal := by
    intro i j
    rcases hstouch i j with hc | ⟨-, ov, hc⟩
    · rw [hc]
      exact hstate i j
    · rw [hc]
  have hgrid : ∀ i j : Fin 9, resetTarget s'.core i j = g2 i j := by
    intro i j
    have hpre : s'.core.prefilled i j = (g2 i j).1 := by
      rw [hspref]
      rfl
    rw [resetTarget]
    cases hcell : (g2 i j).1 with
    | some d =>
      have hkeep : s'.core.prefilled i j ≠ none ∨
          (s'.core.grid i j).2 = CellState.userMarkedDefault := by
        refine Or.inl ?_
        rw [hpre, hcell]
        intro hcontra
        exact Option.noConfusion hcontra
      rw [if_pos hkeep]
      rcases hstouch i j with hc | ⟨hnone, -, -⟩
      · exact hc
      · rw [hcell] at hnone
        exact Option.noConfusion hnone
    | none =>
      have hkeep : ¬(s'.core.prefilled i j ≠ none ∨
          (s'.core.grid i j).2 = CellState.userMarkedDefault) := by
        rintro (hpf | hum)
        · rw [hpre, hcell] at hpf
          exact hpf rfl
        · rw [hsstate i j] at hum
          exact CellState.noConfusion hum
      rw [if_neg hkeep, hsstate i j]
      have hg2eta : g2 i j = ((g2 i j).1, (g2 i j).2) := rfl
      rw [hg2eta, hcell, hstate i j]
  have hgridfull : (resetCore s'.core).grid =
      (⟨g2, prefilledOfGrid g2, rows, columns, blocks⟩ : Core).grid := by
    funext i j
    rw [hrgrid i j]
    exact hgrid i j
  have hvals : (resetCore s'.core).vals =
      (⟨g2, prefilledOfGrid g2, rows, columns, blocks⟩ : Core).vals := by
    funext i j
    show ((resetCore s'.core).grid i j).1 = _
    rw [hgridfull]
    rfl
  have hcore : resetCore s'.core =
      ⟨g2, prefilledOfGrid g2, rows, columns, blocks⟩ := by
    refine core_ext _ _ hgridfull ?_ ?_ ?_ ?_
    · rw [hrpref, hspref]
    · funext i
      refine Nat.eq_of_testBit_eq ?_
      intro v
      refine bool_eq_of_iff ?_
      have hA := hrok.chars.rows i v
      have hB := hok0.chars.rows i v
      rw [hvals] at hA
      exact hA.trans hB.symm
    · funext j
      refine Nat.eq_of_testBit_eq ?_
      intro v
      refine bool_eq_of_iff ?_
      have hA := hrok.chars.columns j v
      have hB := hok0.chars.columns j v
      rw [hvals] at hA
      exact hA.trans hB.symm
    · funext b
      refine Nat.eq_of_testBit_eq ?_
      intro v
      refine bool_eq_of_iff ?_
      have hA := hrok.chars.blocks b v
      have hB := hok0.chars.blocks b v
      rw [hvals] at hA
      exact hA.trans hB.symm
  have hBval : resetB s' =
      ⟨⟨g2, prefilledOfGrid g2, rows, columns, blocks⟩, s'.solved_grid,
        none⟩ := by
    show (⟨resetCore s'.core, s'.solved_grid, s'.highlighted⟩ : Sudoku) = _
    rw [hcore, hhl]
  constructor
  · rw [hBval]
    show posList.countP (fun p => ((g2 p.1 p.2).1).isSome) = filledCount g2
    rfl
  · rw [hBval]
    have hproj := solveGo_sg solveFuel
      ⟨g2, prefilledOfGrid g2, rows, columns, blocks⟩ [] false 0 []
      g2 s'.solved_grid
    rw [hgo] at hproj
    cases hrun : solveGo solveFuel
        ⟨⟨g2, prefilledOfGrid g2, rows, columns, blocks⟩, [], false, 0, [],
          s'.solved_grid⟩ with
    | none =>
      rw [hrun] at hproj
      simp at hproj
    | some r =>
      obtain ⟨rb, rc, rg⟩ := r
      rw [hrun] at hproj
      simp only [Option.map_some', Option.some_inj, Prod.mk.injEq] at hproj
      obtain ⟨hrb, hrc⟩ := hproj
      refine ⟨⟨s'.core, rg, none⟩, ?_⟩
      simp only [solveB]
      rw [hrun, hrb, hrc]
      rfl

/-- A completed `random_board` run (arbitrary random stream, any fuels)
returns a board with exactly `nclues` prefilled clues that the solver
certifies as uniquely solvable. -/
theorem random_board_go_spec (nclues : Nat) (rng : Nat → Nat)
    (remFuel solveFuel : Nat) (hcl : nclues ≤ 81) :
    ∀ (fuel idx : Nat) (B : Sudoku),
    random_board_go nclues rng remFuel solveFuel fuel idx = some B →
    number_of_initial_clues B = nclues ∧
    ∃ s2 : Sudoku, solveB B solveFuel = some (true, s2) := by
  intro fuel
  induction fuel with
  | zero =>
    intro idx B h
    rw [random_board_go] at h
    exact Option.noConfusion h
  | succ fuel ih =>
    intro idx B h
    rw [random_board_go] at h
    cases hfg : fillGrid rng posList
        (emptyGrid, fun _ => 0, fun _ => 0, fun _ => 0) idx with
    | mk fres idx1 =>
      cases fres with
      | none =>
        simp only [hfg] at h
        exact ih idx1 B h
      | some acc =>
        obtain ⟨g, r0, c0, b0⟩ := acc
        simp only [hfg] at h
        cases hrl : removalLoop rng remFuel (81 - nclues) g idx1 with
        | none =>
          simp only [hrl] at h
          exact Option.noConfusion h
        | some pr =>
          obtain ⟨g2, idx2⟩ := pr
          simp only [hrl] at h
          cases hbm : buildMasks g2 with
          | error e =>
            simp only [hbm] at h
            exact ih idx2 B h
          | ok m =>
            obtain ⟨rows, columns, blocks⟩ := m
            simp only [hbm] at h
            cases hsv : solveB
                ⟨⟨g2, prefilledOfGrid g2, rows, columns, blocks⟩, g2, none⟩
                solveFuel with
            | none =>
              simp only [hsv] at h
              exact Option.noConfusion h
            | some pr2 =>
              obtain ⟨bb, s'⟩ := pr2
              cases bb with
              | false =>
                simp only [hsv] at h
                exact ih idx2 B h
              | true =>
                simp only [hsv, Option.some_inj] at h
                obtain ⟨hcells, hfilled⟩ := fillGrid_spec rng posList
                  emptyGrid _ _ _ idx g r0 c0 b0 idx1 hfg
                have hgfull : ∀ i j : Fin 9, ∃ d, 1 ≤ d ∧ d ≤ 9 ∧
                    g i j = (some d, CellState.normal) := by
                  intro i j
                  rcases hcells (i, j) with hc | ⟨d, hd1, hd9, hc⟩
                  · have hne := hfilled (i, j) (mem_posList (i, j))
                    have hc' : g i j = (none, CellState.normal) := hc
                    rw [hc'] at hne
                    exact absurd rfl hne
                  · exact ⟨d, hd1, hd9, hc⟩
                obtain ⟨hrm1, hrm2⟩ :=
                  removalLoop_spec rng remFuel (81 - nclues) g idx1 g2 idx2 hrl
                have hstate : ∀ i j : Fin 9,
                    (g2 i j).2 = CellState.normal := by
                  intro i j
                  obtain ⟨d, -, -, hgc⟩ := hgfull i j
                  rcases hrm1 (i, j) with hc | hc
                  · have hc' : g2 i j = g i j := hc
                    rw [hc', hgc]
                  · have hc' : g2 i j = (none, (g i j).2) := hc
                    rw [hc', hgc]
                have hdig : DigitsV (fun i j => (g2 i j).1) := by
                  intro i j v hv
                  obtain ⟨d, hd1, hd9, hgc⟩ := hgfull i j
                  rcases hrm1 (i, j) with hc | hc
                  · have hc' : g2 i j = g i j := hc
                    have hv' : (g i j).1 = some v := by
                      rw [← hc']
                      exact hv
                    rw [hgc] at hv'
                    have hv'' : some d = some v := hv'
                    injection hv'' with hv3
                    omega
                  · have hc' : g2 i j = (none, (g i j).2) := hc
                    have hv0 : (g2 i j).1 = some v := hv
                    rw [hc'] at hv0
                    have hv1 : (none : Option Nat) = some v := hv0
                    exact Option.noConfusion hv1
                have hcg : filledCount g = 81 := by
                  have hall := countP_all posList
                    (fun p => ((g p.1 p.2).1).isSome) ?_
                  · have hlen : posList.length = 81 := by decide
                    rw [filledCount, hall, hlen]
                  · intro p hp
                    obtain ⟨d, -, -, hgc⟩ := hgfull p.1 p.2
                    show ((g p.1 p.2).1).isSome = true
                    rw [hgc]
                    rfl
                have hcg2 : filledCount g2 = nclues := by omega
                obtain ⟨hnum, hsolve⟩ := gen_success_spec g2 rows columns
                  blocks solveFuel s' hbm hstate hdig hsv
                rw [← h]
                rw [hcg2] at hnum
                exact ⟨hnum, hsolve⟩

/-- C6 (amended): `from_str` fails hard when the cell count differs from
81, when a two-character token does not start with `u` (case-insensitively),
when a token's numeric value (for bare tokens the token itself, for
`u`-tokens the lowercased second character) parses as a `u8` but lies
outside `[1, 9]`, or when the parsed grid has a duplicate digit in a row,
column or block; and a successful parse returns a board with no duplicates
and only digits in `[1, 9]`.  However — the correction — a `u`-prefixed
token whose second character fails numeric parsing (such as `uu`) is
silently treated as an empty cell, not an error; the same holds for bare
tokens that fail numeric parsing. -/
theorem claim_C6 :
    (∀ (fuel : Nat) (inp : List Char),
      (splitOnComma (preprocess inp)).length ≠ 81 →
      isErr (from_str fuel inp) = true) ∧
    (∀ (fuel : Nat) (inp t : List Char),
      t ∈ splitOnComma (preprocess inp) → (trimChars t).length = 2 →
      ((trimChars t).map Char.toLower).head? ≠ some 'u' →
      isErr (from_str fuel inp) = true) ∧
    (∀ (fuel : Nat) (inp t : List Char) (v : Nat),
      t ∈ splitOnComma (preprocess inp) → trimChars t ≠ [] →
      (trimChars t).length ≠ 2 → parse_u8 (trimChars t) = some v →
      (v < 1 ∨ v > 9) → isErr (from_str fuel inp) = true) ∧
    (∀ (fuel : Nat) (inp t : List Char) (v : Nat),
      t ∈ splitOnComma (preprocess inp) → (trimChars t).length = 2 →
      ((trimChars t).map Char.toLower).head? = some 'u' →
      parse_u8 (((trimChars t).map Char.toLower).tail) = some v →
      (v < 1 ∨ v > 9) → isErr (from_str fuel inp) = true) ∧
    (∀ (fuel : Nat) (inp : List Char) (g : Grid),
      parsedGrid inp = some g → ¬ ValidV (fun i j => (g i j).1) →
      isErr (from_str fuel inp) = true) ∧
    (∀ (fuel : Nat) (inp : List Char) (b : Sudoku),
      from_str fuel inp = Except.ok b →
      ValidV (fun i j => (b.core.grid i j).1) ∧
      DigitsV (fun i j => (b.core.grid i j).1)) := by
  refine ⟨from_str_err_count, ?_, ?_, ?_, from_str_err_dup, from_str_ok_valid⟩
  · intro fuel inp t ht h2 hu
    exact from_str_err_of_token fuel inp ⟨t, ht, parseCell_err_non_u t h2 hu⟩
  · intro fuel inp t v ht hne h2 hp hout
    exact from_str_err_of_token fuel inp
      ⟨t, ht, parseCell_err_range t hne h2 v hp hout⟩
  · intro fuel inp t v ht h2 hu hp hout
    exact from_str_err_of_token fuel inp
      ⟨t, ht, parseCell_err_u_range t h2 hu v hp hout⟩

/-- Counterexample for C6 as stated: the input `sUuStr` contains the
malformed `u`-prefixed token `uu` as its first token, yet `from_str`
succeeds, silently treating that cell as empty — not the claimed hard parse
error. -/
theorem claim_C6_cex :
    (splitOnComma (preprocess sUu)).head? = some ('u' :: ['u']) ∧
    (from_str 99 sUu).toOption.map
      (fun b => decide ((b.core.grid 0 0).1 = none)) = some true := by
  constructor
  · decide
  · decide

/-- Witness for C6 (amended) at concrete inputs: the empty input has the
wrong cell count, and the input `12` contains a two-character token that
does not start with `u`. -/
theorem claim_C6_witness :
    isErr (from_str 9 ([] : List Char)) = true ∧
    isErr (from_str 9 ('1' :: ['2'])) = true :=
  ⟨claim_C6.1 9 [] (by decide),
    claim_C6.2.1 9 ('1' :: ['2']) ('1' :: ['2']) (by decide) (by decide)
      (by decide)⟩

/-- C1 (code bug): `hint` breaks the grid/bitmask invariant.  On the
concrete board decoded from `s80Str` (a validly constructed 80-clue board),
the claimed invariant holds; after `hint` fills the empty cell `(0, 0)` from
the solved grid, the cell is filled but none of its three mask bits is set,
so the invariant is violated. -/
theorem claim_C1 :
    (from_str 99 s80).toOption.map
      (fun b => invariantB b.core && !(invariantB (hintB b 0 0).2.core)) =
      some true := by
  decide

/-- C3 (code bug): on a fully solved valid board — which has exactly one
completion, itself — `solve` returns `false` immediately (the loop's first
iteration sees no empty cell with an empty backtrack stack), instead of the
claimed `true` with that completion cached. -/
theorem claim_C3 :
    solveB (mkFromGrid completeG) 9 = some (false, mkFromGrid completeG) ∧
    (∀ cv : VGrid, Completion (mkFromGrid completeG).core.vals cv ↔
      cv = (mkFromGrid completeG).core.vals) := by
  constructor
  · decide
  · exact completion_of_full _ (by decide)
      (validV_of_decide _ (by decide) (by decide) (by decide))
      (digitsV_of_getD _ (by decide))

/-- C9 (code bug): the complete valid board encoded by `sFullStr` parses
cleanly to `completeG` and has exactly one completion, yet `from_str`
rejects it with the "invalid board given" error, because the final `solve`
gate returns `false` on a board with no empty cell. -/
theorem claim_C9 :
    (parsedGrid sFull).map (fun g => decide (g = completeG)) = some true ∧
    from_str 9 sFull = Except.error ("invalid board given").data ∧
    (∀ cv : VGrid, Completion (fun i j => (completeG i j).1) cv ↔
      cv = fun i j => (completeG i j).1) := by
  refine ⟨by decide, by decide, ?_⟩
  exact completion_of_full _ (by decide)
    (validV_of_decide _ (by decide) (by decide) (by decide))
    (digitsV_of_getD _ (by decide))

/-- C5 (code bug): a board produced by the generator (a completed
`generate_random_board` call on the concrete stream `genStream`) does not
survive the dense round trip: `from_str` of its `to_thonky_str` encoding
fails (the dense decoder merges adjacent digits, so the cell count check
fails), while the compact round trip `from_str (to_str b)` on the very same
board reproduces the board exactly. -/
theorem claim_C5 :
    (generate_random_board 80 genStream 3 5 200).map
      (fun b => isErr (from_str 200 (to_thonky_str b))) = some true ∧
    (generate_random_board 80 genStream 3 5 200).map
      (fun b => decide (from_str 200 (to_str b.core) = Except.ok b)) =
      some true := by
  constructor
  · decide
  · decide

/-! ## The claims -/

/-- C10: `insert_at` called with `Some v` on a position whose cell already
holds a digit returns `InsertStatus::ValuePresent` and leaves the whole
`Sudoku` value — grid, the three bitmask arrays, prefilled map, solved grid
and highlight — exactly unchanged. -/
theorem claim_C10 (s : Sudoku) (x y : Fin 9) (v : Nat)
    (h : (s.core.grid x y).1.isSome = true) (h1 : 1 ≤ v) (h9 : v ≤ 9) :
    insert_at s x y (some v) = (InsertStatus.valuePresent, s) := by
  simp only [insert_at, if_pos h]

/-- Witness for C10 at a concrete occupied cell. -/
theorem claim_C10_witness :
    insert_at (mkFromGrid completeG) 0 0 (some 7) =
      (InsertStatus.valuePresent, mkFromGrid completeG) :=
  claim_C10 (mkFromGrid completeG) 0 0 7 (by decide) (by decide) (by decide)

/-- C2 (amended): full behavior of `set`/`insert` on a consistent board.
On an empty cell a conflicting digit fails with no mutation at all (the cell
stays empty), and a non-conflicting digit is stored with its three bits set.
On an occupied cell the old value's bits are cleared from all three masks
first; if the digit then conflicts, the call fails but the cell is *left
holding the old value* while the masks describe the grid with that cell
blanked (a partial mutation), and otherwise the digit is stored normally. -/
theorem claim_C2 (c : Core) (x y : Fin 9) (d : Nat) (cs : CellState)
    (hok : CoreOk c) (h1 : 1 ≤ d) (h9 : d ≤ 9) :
    ((c.grid x y).1 = none → ConflictV c.vals x y d →
      insertB c x y (some d) cs = (false, c)) ∧
    ((c.grid x y).1 = none → ¬ ConflictV c.vals x y d →
      (insertB c x y (some d) cs).1 = true ∧
      (insertB c x y (some d) cs).2.grid = setCell c.grid x y (some d, cs) ∧
      CoreOk (insertB c x y (some d) cs).2) ∧
    (∀ w, (c.grid x y).1 = some w → ConflictV (eraseV c.vals x y) x y d →
      insertB c x y (some d) cs = (false, update_maps_remove c x y w) ∧
      ((update_maps_remove c x y w).grid x y).1 = some w ∧
      MasksChar (update_maps_remove c x y w) (eraseV c.vals x y)) ∧
    (∀ w, (c.grid x y).1 = some w → ¬ ConflictV (eraseV c.vals x y) x y d →
      (insertB c x y (some d) cs).1 = true ∧
      (insertB c x y (some d) cs).2.grid = setCell c.grid x y (some d, cs) ∧
      CoreOk (insertB c x y (some d) cs).2) := by
  refine ⟨?_, ?_, ?_, ?_⟩
  · intro he hc
    exact insertB_empty_conflict c x y d cs hok.chars he hc
  · intro he hnc
    obtain ⟨ha, hb, hc', -, hd'⟩ := insertB_empty_ok c x y d cs hok he hnc h1 h9
    exact ⟨ha, hb, hd'⟩
  · intro w ho hc
    have hp := pendOk_start c x y w hok ho
    exact ⟨insertB_occ_conflict c x y d w cs hok ho hc, hp.cell, hp.chars⟩
  · intro w ho hnc
    have hp := pendOk_start c x y w hok ho
    rw [insertB_occ_eq_pend c x y w (some d) cs hok ho]
    obtain ⟨ha, hb, hc', -, hd'⟩ :=
      insertB_pend_ok (update_maps_remove c x y w) x y d w cs hp hnc h1 h9
    exact ⟨ha, hb, hd'⟩

/-- Counterexample for C2 as stated: on the concrete board `c2cex`, where
`(0,0)` holds 1 and `(0,1)` holds 2, inserting 2 at the occupied cell
`(0,0)` fails — but the cell is *not* left empty (it still holds 1) and the
row mask was mutated by the failing call. -/
theorem claim_C2_cex :
    (insertB c2cex 0 0 (some 2) CellState.normal).1 = false ∧
    ((insertB c2cex 0 0 (some 2) CellState.normal).2.grid 0 0).1 = some 1 ∧
    (insertB c2cex 0 0 (some 2) CellState.normal).2.rows 0 ≠ c2cex.rows 0 := by
  decide

/-- Witness for C2 (amended) at the concrete board `c2cex`. -/
theorem claim_C2_witness :
    insertB c2cex 0 0 (some 2) CellState.normal =
      (false, update_maps_remove c2cex 0 0 1) ∧
    ((update_maps_remove c2cex 0 0 1).grid 0 0).1 = some 1 := by
  have h := (claim_C2 c2cex 0 0 2 CellState.normal
    (coreOk_of_buildMasks c2cex (by decide) (by decide))
    (by decide) (by decide)).2.2.1 1 (by decide) (by decide)
  exact ⟨h.1, h.2.1⟩

/-- C4 (amended): `fetch_next_empty_cell` returns an empty cell of strictly
positive score that maximizes the score over all empty cells, ties broken by
the first such cell in row-major scan order; it returns `none` exactly when
no empty cell has positive score — in particular on a full grid, but also on
a grid (such as the empty board) whose empty cells all have score zero. -/
theorem claim_C4 :
    (∀ (c : Core) (p : Fin 9 × Fin 9), fetch_next_empty_cell c = some p →
      (c.grid p.1 p.2).1 = none ∧ 0 < cellScore c p ∧
      (∀ q : Fin 9 × Fin 9, (c.grid q.1 q.2).1 = none →
        cellScore c q ≤ cellScore c p) ∧
      ∃ l1 l2, posList = l1 ++ p :: l2 ∧
        ∀ q ∈ l1, (c.grid q.1 q.2).1 = none →
          cellScore c q < cellScore c p) ∧
    (∀ c : Core, fetch_next_empty_cell c = none →
      ∀ q : Fin 9 × Fin 9, (c.grid q.1 q.2).1 = none → cellScore c q = 0) := by
  constructor
  · intro c p h
    rcases fetch_spec c with ⟨hacc, -⟩ |
      ⟨p', l1, l2, hacc, hP, hpe, hpp, hstrict, hle⟩
    · rw [fetch_next_empty_cell, hacc] at h
      cases h
    · rw [fetch_next_empty_cell, hacc] at h
      cases h
      exact ⟨hpe, hpp, fun q hq => hle q (mem_posList q) hq, l1, l2, hP, hstrict⟩
  · intro c h q he
    rcases fetch_spec c with ⟨hacc, hall⟩ |
      ⟨p', l1, l2, hacc, hP, hpe, hpp, hstrict, hle⟩
    · exact hall q (mem_posList q) he
    · rw [fetch_next_empty_cell, hacc] at h
      cases h

/-- Counterexample for C4 as stated ("returns none iff the grid is full"):
on the completely empty board every cell is empty, yet the scan returns
`none`, because no empty cell has positive score and the running maximum
starts at 0 with a strict comparison. -/
theorem claim_C4_cex :
    fetch_next_empty_cell emptyCore = none ∧
    (emptyCore.grid 0 0).1 = none := by
  decide

/-- Witness for C4 (amended) at the concrete board `c2cex`, whose most
constrained empty cell is `(0, 2)`. -/
theorem claim_C4_witness :
    fetch_next_empty_cell c2cex = some (0, 2) ∧
    (c2cex.grid 0 2).1 = none ∧ 0 < cellScore c2cex (0, 2) ∧
    cellScore c2cex (8, 8) ≤ cellScore c2cex (0, 2) := by
  have h := claim_C4.1 c2cex (0, 2) (by decide)
  exact ⟨by decide, h.1, h.2.1, h.2.2.1 (8, 8) (by decide)⟩

/-- C7: whenever `generate_random_board` completes and returns a puzzle, the
puzzle's prefilled-clue count equals the requested count clamped to
`[10, 80]`, and rerunning the solver on the returned puzzle reports a unique
solution (`solve` returns `true`).  This holds for every clue count, every
random stream and all fuel budgets. -/
theorem claim_C7 (clues : Nat) (rng : Nat → Nat)
    (fuel remFuel solveFuel : Nat) (B : Sudoku)
    (h : generate_random_board clues rng fuel remFuel solveFuel = some B) :
    number_of_initial_clues B = min (max clues 10) 80 ∧
    ∃ s2 : Sudoku, solveB B solveFuel = some (true, s2) := by
  have hcl : min (max clues 10) 80 ≤ 81 := by omega
  exact random_board_go_spec (min (max clues 10) 80) rng remFuel solveFuel
    hcl fuel 0 B h

/-- Witness for C7: a concrete completed run of the generator (requesting 80
clues on the stream `genStream`) returns a board with exactly 80 clues that
the solver certifies. -/
theorem claim_C7_witness :
    number_of_initial_clues
      ((generate_random_board 80 genStream 3 5 200).getD
        (mkFromGrid emptyGrid)) = 80 ∧
    ∃ s2 : Sudoku,
      solveB ((generate_random_board 80 genStream 3 5 200).getD
        (mkFromGrid emptyGrid)) 200 = some (true, s2) := by
  have h : generate_random_board 80 genStream 3 5 200 =
      some ((generate_random_board 80 genStream 3 5 200).getD
        (mkFromGrid emptyGrid)) := by
    decide
  have hc := claim_C7 80 genStream 3 5 200 _ h
  exact ⟨hc.1.trans (by omega), hc.2⟩

end SudokuSpec
